import Mathlib

/-!
Verification development for the audio capture and spectral analysis pipeline
(`src/audio.py`, class `AudioAnalyzer`).

Numeric model: Python floats are modelled by the real numbers `ℝ`; `numpy`
complex FFT values by `ℂ`.  Arrays are modelled by `List ℝ`.  Each definition
below names the source function it embeds.
-/

namespace MusicVisualizer

noncomputable section

/-- `np.hanning(M)` : the Hann window, `w[i] = 0.5 - 0.5*cos(2*pi*i/(M-1))`
for `M > 1`; numpy returns `[1.0]` for `M = 1` and `[]` for `M = 0`. -/
def hanning (M : ℕ) : List ℝ :=
  if M = 1 then [1]
  else (List.range M).map fun i : ℕ =>
    1/2 - 1/2 * Real.cos (2 * Real.pi * (i : ℝ) / ((M : ℝ) - 1))

/-- `np.fft.rfft(x)` : the real-input discrete Fourier transform, giving the
`len(x)/2 + 1` complex coefficients `X[k] = sum_j x[j] * exp(-2*pi*I*j*k/n)`
for the non-negative frequencies. -/
def rfft (x : List ℝ) : List ℂ :=
  (List.range (x.length / 2 + 1)).map fun k : ℕ =>
    ∑ j ∈ Finset.range x.length,
      (x.getD j 0 : ℂ) *
        Complex.exp (-2 * Real.pi * Complex.I * (j : ℂ) * (k : ℂ) / (x.length : ℂ))

/-- `np.fft.rfftfreq(n, 1/sample_rate)` : frequency of FFT bin `k` is
`k * sample_rate / n`, for `k = 0 .. n/2`  (audio.py:146). -/
def rfftfreq (n : ℕ) (sr : ℝ) : List ℝ :=
  (List.range (n / 2 + 1)).map fun k : ℕ => (k : ℝ) * sr / (n : ℝ)

/-- `np.linspace(a, b, M)` : `M` evenly spaced values from `a` to `b`
inclusive, `a + i*(b-a)/(M-1)`. -/
def linspace (a b : ℝ) (M : ℕ) : List ℝ :=
  (List.range M).map fun i : ℕ => a + (i : ℝ) * ((b - a) / ((M : ℝ) - 1))

/-- `np.logspace(np.log10(20), np.log10(16000), num_bins + 1)`
(audio.py:176): `num_bins + 1` values `10 ^ e` for `e` evenly spaced between
`log10 20` and `log10 16000`. -/
def log_edges (num_bins : ℕ) : List ℝ :=
  (linspace (Real.logb 10 20) (Real.logb 10 16000) (num_bins + 1)).map
    fun e => (10 : ℝ) ^ e

/-- The boolean mask `(freqs >= low) & (freqs < high)` at a single
frequency `f` (audio.py:150 and audio.py:180). -/
def bandMask (low high f : ℝ) : Bool := decide (low ≤ f) && decide (f < high)

/-- The elements of `fft` selected by the mask
`(freqs >= low) & (freqs < high)` (the numpy fancy-indexing `fft[mask]`);
the two parallel equal-length arrays are paired with `zip`. -/
def band_sel (fft freqs : List ℝ) (low high : ℝ) : List ℝ :=
  ((freqs.zip fft).filter fun p => bandMask low high p.1).map Prod.snd

/-- `band_energy(low, high)` from `_process_audio` (audio.py:149-151):
`np.mean(fft[mask]) if np.any(mask) else 0.0` where
`mask = (freqs >= low) & (freqs < high)`. -/
def band_energy (fft freqs : List ℝ) (low high : ℝ) : ℝ :=
  if (band_sel fft freqs low high).length = 0 then 0
  else (band_sel fft freqs low high).sum / ((band_sel fft freqs low high).length : ℝ)

/-- `_compute_spectrum_bins` (audio.py:174-190).  The per-bin loop computes
exactly the mean-if-any-else-0 of the magnitudes with frequency in
`[log_edges[i], log_edges[i+1])` — the same computation as `band_energy`
with those bounds — and the final vectorized
`np.minimum(bins / ref_scale, 1.5)`, `ref_scale = np.linspace(40.0, 3.0,
num_bins)`, is fused into the same map over the bin index. -/
def _compute_spectrum_bins (num_bins : ℕ) (fft freqs : List ℝ) : List ℝ :=
  (List.range num_bins).map fun i : ℕ =>
    min (band_energy fft freqs ((log_edges num_bins).getD i 0)
      ((log_edges num_bins).getD (i+1) 0) / (linspace 40 3 num_bins).getD i 0) 1.5

/-- One device record of the `pyaudio` enumeration
(`p.get_device_info_by_index`).  Device names are modelled as character
lists; `defaultSampleRate` is an integer (hardware rates are integral, so the
source's `int(dev["defaultSampleRate"])` conversion is the identity). -/
structure DeviceInfo where
  index : ℕ
  name : List Char
  hostApi : ℕ
  isLoopbackDevice : Bool
  maxInputChannels : ℕ
  defaultSampleRate : ℤ

/-- One host-API record (`p.get_host_api_info_by_index`). -/
structure HostApiInfo where
  index : ℕ
  name : List Char
  defaultOutputDevice : ℕ

/-- The audio-device enumeration environment that `pyaudio` exposes. -/
structure DeviceEnv where
  hostApis : List HostApiInfo
  devices : List DeviceInfo

/-- Python's substring test `sub in s` on character lists. -/
def containsSub (sub s : List Char) : Bool :=
  (List.range (s.length + 1)).any fun i => decide ((s.drop i).take sub.length = sub)

/-- The characters of the literal `"WASAPI"` (audio.py:46). -/
def wasapiName : List Char := ['W', 'A', 'S', 'A', 'P', 'I']

/-- `_find_loopback_device` (audio.py:37-94) as a pure resolution function
over the enumeration environment, returning the chosen device: the first
WASAPI host API, its default output device, then the first loopback device on
that API whose name contains the output's name, else the first loopback
device of any API.  A missing default-output record raises in the source and
is caught by the bare `except`, leaving no device. -/
def _find_loopback_device (env : DeviceEnv) : Option DeviceInfo :=
  match env.hostApis.find? (fun a => containsSub wasapiName a.name) with
  | none => none
  | some wasapi_info =>
    match env.devices.find? (fun d => d.index == wasapi_info.defaultOutputDevice) with
    | none => none
    | some default_info =>
      match env.devices.find? (fun d =>
          (d.hostApi == wasapi_info.index) && d.isLoopbackDevice &&
          containsSub default_info.name d.name) with
      | some dev => some dev
      | none => env.devices.find? (fun d => d.isLoopbackDevice)

/-- The full state of an `AudioAnalyzer` object: the configuration and device
fields set by `__init__`/`_find_loopback_device` (audio.py:10-35), the
smoothed analysis state (`bass`, `mid`, `treble`, `spectrum_bins`), and the
lifecycle flags.  `thread_spawned` models `hasattr(self, 'thread')`;
`warned_no_device` models the warning printed by `start()` when no device was
resolved. -/
structure AnalyzerState where
  sample_rate : ℝ
  buffer_size : ℕ
  channels : ℕ
  device_index : Option ℕ
  device_name : List Char
  bass : ℝ
  mid : ℝ
  treble : ℝ
  num_bins : ℕ
  spectrum_bins : List ℝ
  smooth_factor : ℝ
  spectrum_smooth : ℝ
  running : Bool
  thread_spawned : Bool
  warned_no_device : Bool

/-- `AudioAnalyzer.__init__` (audio.py:10-35) together with the field
assignments performed inside `_find_loopback_device` (audio.py:66-70,
80-84, 93-94): sample-rate override kept if given, else the resolved
device's default rate, else `44100`; `buffer_size` defaults to `2048`;
`num_bins = 64`; zeroed analysis state; smoothing constants `0.7`/`0.6`. -/
def init (env : DeviceEnv) (sample_rate : Option ℝ := none)
    (buffer_size : ℕ := 2048) : AnalyzerState :=
  let dev := _find_loopback_device env
  { sample_rate :=
      match sample_rate with
      | some sr => sr
      | none =>
        match dev with
        | some d => (d.defaultSampleRate : ℝ)
        | none => 44100
    buffer_size := buffer_size
    channels := match dev with | some d => d.maxInputChannels | none => 2
    device_index := match dev with | some d => some d.index | none => none
    device_name :=
      match dev with
      | some d => d.name
      | none => ['N', 'o', ' ', 'd', 'e', 'v', 'i', 'c', 'e']
    bass := 0
    mid := 0
    treble := 0
    num_bins := 64
    spectrum_bins := List.replicate 64 0
    smooth_factor := 0.7
    spectrum_smooth := 0.6
    running := false
    thread_spawned := false
    warned_no_device := false }

/-- `start` (audio.py:96-102): with no device it only prints a warning
(modelled by `warned_no_device`) and returns; otherwise it sets `running`
and spawns the capture thread. -/
def start (st : AnalyzerState) : AnalyzerState :=
  match st.device_index with
  | none => { st with warned_no_device := true }
  | some _ => { st with running := true, thread_spawned := true }

/-- `stop` (audio.py:104-107): clears `running`; the `join(timeout=2)` has no
effect on the analyzer state. -/
def stop (st : AnalyzerState) : AnalyzerState :=
  { st with running := false }

/-- `get_audio_levels` (audio.py:192-194). -/
def get_audio_levels (st : AnalyzerState) : ℝ × ℝ × ℝ := (st.bass, st.mid, st.treble)

/-- `get_spectrum` (audio.py:196-198); the `.copy()` returns a list with the
same elements, so as a value it is `spectrum_bins` itself (the aliasing
behaviour of `.copy()` is modelled separately with an explicit heap). -/
def get_spectrum (st : AnalyzerState) : List ℝ := st.spectrum_bins

/-- `_process_audio` (audio.py:140-172): Hann windowing, FFT magnitudes,
band energies over [20,250), [250,4000), [4000,16000) scaled by 50/10/3 and
clamped at 2.0, the 64 spectrum bins, then the exponential-moving-average
update of the published state under the lock. -/
def _process_audio (st : AnalyzerState) (data : List ℝ) : AnalyzerState :=
  let windowed := List.zipWith (· * ·) data (hanning data.length)
  let fft := (rfft windowed).map Complex.abs
  let freqs := rfftfreq data.length st.sample_rate
  let bass_raw := band_energy fft freqs 20 250
  let mid_raw := band_energy fft freqs 250 4000
  let treble_raw := band_energy fft freqs 4000 16000
  let bass_scaled := min (bass_raw / 50) 2
  let mid_scaled := min (mid_raw / 10) 2
  let treble_scaled := min (treble_raw / 3) 2
  let new_bins := _compute_spectrum_bins st.num_bins fft freqs
  let s := st.smooth_factor
  let ss := st.spectrum_smooth
  { st with
    bass := st.bass * s + bass_scaled * (1 - s)
    mid := st.mid * s + mid_scaled * (1 - s)
    treble := st.treble * s + treble_scaled * (1 - s)
    spectrum_bins :=
      List.zipWith (fun o n => o * ss + n * (1 - ss)) st.spectrum_bins new_bins }

/-- One observable transition of the analyzer: a `start()` call, a `stop()`
call, or one iteration of the capture loop (audio.py:122-130), which only
runs while the spawned thread sees `running`. -/
inductive SysStep : AnalyzerState → AnalyzerState → Prop
  | startStep (st : AnalyzerState) : SysStep st (start st)
  | stopStep (st : AnalyzerState) : SysStep st (stop st)
  | frameStep (st : AnalyzerState) (data : List ℝ)
      (hr : st.running = true) (ht : st.thread_spawned = true) :
      SysStep st (_process_audio st data)

end

/-! ### Generic list lemmas -/

lemma getD_range_map (f : ℕ → ℝ) {M i : ℕ} (h : i < M) :
    ((List.range M).map f).getD i 0 = f i := by
  simp [List.getD, h]

lemma getD_zipWith (f : ℝ → ℝ → ℝ) {l1 l2 : List ℝ} {i : ℕ}
    (h1 : i < l1.length) (h2 : i < l2.length) :
    (List.zipWith f l1 l2).getD i 0 = f (l1.getD i 0) (l2.getD i 0) := by
  have hi : i < (List.zipWith f l1 l2).length := by
    simp only [List.length_zipWith]; omega
  rw [List.getD_eq_getElem _ _ hi, List.getD_eq_getElem _ _ h1,
    List.getD_eq_getElem _ _ h2]
  exact List.getElem_zipWith

lemma mem_zipWith {f : ℝ → ℝ → ℝ} {l1 l2 : List ℝ} {x : ℝ}
    (hx : x ∈ List.zipWith f l1 l2) : ∃ a ∈ l1, ∃ b ∈ l2, x = f a b := by
  induction l1 generalizing l2 with
  | nil => simp at hx
  | cons a t ih =>
    cases l2 with
    | nil => simp at hx
    | cons b t2 =>
      simp only [List.zipWith_cons_cons, List.mem_cons] at hx
      rcases hx with rfl | hx
      · exact ⟨a, by simp, b, by simp, rfl⟩
      · obtain ⟨a1, ha, b1, hb, rfl⟩ := ih hx
        exact ⟨a1, by simp [ha], b1, by simp [hb], rfl⟩

/-- Every element selected by the band mask is an element of `fft`. -/
lemma mem_of_mem_sel {fft freqs : List ℝ} {lo hi : ℝ} {x : ℝ}
    (hx : x ∈ band_sel fft freqs lo hi) : x ∈ fft := by
  simp only [band_sel, List.mem_map] at hx
  obtain ⟨q, hq, rfl⟩ := hx
  exact (List.of_mem_zip (List.mem_of_mem_filter hq)).2

/-! ### Non-negativity and range facts about the processing pipeline -/

lemma fftMag_nonneg (w : List ℝ) : ∀ x ∈ (rfft w).map Complex.abs, 0 ≤ x := by
  intro x hx
  simp only [List.mem_map] at hx
  obtain ⟨z, _, rfl⟩ := hx
  exact Complex.abs.nonneg z

lemma band_energy_nonneg {fft freqs : List ℝ} {lo hi : ℝ}
    (h : ∀ x ∈ fft, 0 ≤ x) : 0 ≤ band_energy fft freqs lo hi := by
  unfold band_energy
  split
  · exact le_refl 0
  · exact div_nonneg
      (List.sum_nonneg fun x hx => h x (mem_of_mem_sel hx))
      (Nat.cast_nonneg _)

lemma band_energy_of_zero {fft freqs : List ℝ} {lo hi : ℝ}
    (h : ∀ x ∈ fft, x = 0) : band_energy fft freqs lo hi = 0 := by
  unfold band_energy
  split
  · rfl
  · rw [List.sum_eq_zero fun x hx => h x (mem_of_mem_sel hx), zero_div]

lemma ref_scale_pos {i : ℕ} (h : i < 64) : 0 < (linspace 40 3 64).getD i 0 := by
  rw [linspace, getD_range_map _ h]
  have hi : (i : ℝ) ≤ 63 := by exact_mod_cast Nat.le_of_lt_succ h
  nlinarith

lemma compute_bins_length (nb : ℕ) (fft freqs : List ℝ) :
    (_compute_spectrum_bins nb fft freqs).length = nb := by
  simp [_compute_spectrum_bins]

lemma compute_bins_mem_bounds {fft freqs : List ℝ} {x : ℝ}
    (hf : ∀ y ∈ fft, 0 ≤ y) (hx : x ∈ _compute_spectrum_bins 64 fft freqs) :
    0 ≤ x ∧ x ≤ 1.5 := by
  simp only [_compute_spectrum_bins, List.mem_map, List.mem_range] at hx
  obtain ⟨i, hi, rfl⟩ := hx
  refine ⟨le_min ?_ (by norm_num), min_le_right _ _⟩
  exact div_nonneg (band_energy_nonneg hf) (ref_scale_pos hi).le

lemma compute_bins_of_zero {nb : ℕ} {fft freqs : List ℝ}
    (h : ∀ x ∈ fft, x = 0) :
    ∀ x ∈ _compute_spectrum_bins nb fft freqs, x = 0 := by
  intro x hx
  simp only [_compute_spectrum_bins, List.mem_map, List.mem_range] at hx
  obtain ⟨i, hi, rfl⟩ := hx
  rw [band_energy_of_zero h, zero_div]
  exact min_eq_left (by norm_num)

/-! ### The state invariant for claim C1 -/

/-- The invariant maintained by every reachable analyzer state. -/
def StateInv (st : AnalyzerState) : Prop :=
  st.smooth_factor = 0.7 ∧ st.spectrum_smooth = 0.6 ∧ st.num_bins = 64 ∧
  (0 ≤ st.bass ∧ st.bass ≤ 2) ∧ (0 ≤ st.mid ∧ st.mid ≤ 2) ∧
  (0 ≤ st.treble ∧ st.treble ≤ 2) ∧
  st.spectrum_bins.length = 64 ∧ (∀ x ∈ st.spectrum_bins, 0 ≤ x ∧ x ≤ 1.5)

lemma StateInv_init (env : DeviceEnv) (sr : Option ℝ) (bs : ℕ) :
    StateInv (init env sr bs) := by
  unfold StateInv init
  refine ⟨rfl, rfl, rfl, by norm_num, by norm_num, by norm_num, by simp, ?_⟩
  intro x hx
  rw [List.eq_of_mem_replicate hx]
  norm_num

lemma ema_band_range {a r : ℝ} (ha : 0 ≤ a) (ha2 : a ≤ 2) (hr : 0 ≤ r)
    (hr2 : r ≤ 2) : 0 ≤ a * 0.7 + r * (1 - 0.7) ∧ a * 0.7 + r * (1 - 0.7) ≤ 2 := by
  constructor <;> nlinarith

lemma StateInv_process {st : AnalyzerState} (h : StateInv st) (data : List ℝ) :
    StateInv (_process_audio st data) := by
  obtain ⟨hs, hss, hnb, hb, hm, ht, hlen, hspec⟩ := h
  unfold _process_audio
  set fft := (rfft (List.zipWith (· * ·) data (hanning data.length))).map Complex.abs with hfft
  have hfnn : ∀ x ∈ fft, 0 ≤ x := fftMag_nonneg _
  have hraw : ∀ lo hi : ℝ,
      0 ≤ min (band_energy fft (rfftfreq data.length st.sample_rate) lo hi / 50) 2 ∧
      min (band_energy fft (rfftfreq data.length st.sample_rate) lo hi / 50) 2 ≤ 2 := by
    intro lo hi
    exact ⟨le_min (div_nonneg (band_energy_nonneg hfnn) (by norm_num)) (by norm_num),
      min_le_right _ _⟩
  have hraw10 : ∀ lo hi : ℝ,
      0 ≤ min (band_energy fft (rfftfreq data.length st.sample_rate) lo hi / 10) 2 ∧
      min (band_energy fft (rfftfreq data.length st.sample_rate) lo hi / 10) 2 ≤ 2 := by
    intro lo hi
    exact ⟨le_min (div_nonneg (band_energy_nonneg hfnn) (by norm_num)) (by norm_num),
      min_le_right _ _⟩
  have hraw3 : ∀ lo hi : ℝ,
      0 ≤ min (band_energy fft (rfftfreq data.length st.sample_rate) lo hi / 3) 2 ∧
      min (band_energy fft (rfftfreq data.length st.sample_rate) lo hi / 3) 2 ≤ 2 := by
    intro lo hi
    exact ⟨le_min (div_nonneg (band_energy_nonneg hfnn) (by norm_num)) (by norm_num),
      min_le_right _ _⟩
  refine ⟨hs, hss, hnb, ?_, ?_, ?_, ?_, ?_⟩
  · rw [hs]
    exact ema_band_range hb.1 hb.2 (hraw 20 250).1 (hraw 20 250).2
  · rw [hs]
    exact ema_band_range hm.1 hm.2 (hraw10 250 4000).1 (hraw10 250 4000).2
  · rw [hs]
    exact ema_band_range ht.1 ht.2 (hraw3 4000 16000).1 (hraw3 4000 16000).2
  · rw [List.length_zipWith, hlen, hnb, compute_bins_length]
    exact min_self 64
  · intro x hx
    obtain ⟨o, ho, n, hn, rfl⟩ := mem_zipWith hx
    rw [hnb] at hn
    have hob := hspec o ho
    have hnb2 := compute_bins_mem_bounds hfnn hn
    rw [hss]
    constructor <;> nlinarith [hob.1, hob.2, hnb2.1, hnb2.2]

lemma StateInv_step {a b : AnalyzerState} (h : StateInv a) (hs : SysStep a b) :
    StateInv b := by
  cases hs with
  | startStep =>
    unfold start
    cases a.device_index <;> exact h
  | stopStep => exact h
  | frameStep data hr htr => exact StateInv_process h data

/-- Claim C1: for every reachable state of the analyzer (the initial state and
any sequence of lifecycle/processing steps), `get_audio_levels()` returns
three values each in `[0, 2]` and `get_spectrum()` returns exactly 64 values
each in `[0, 1.5]`. -/
theorem C1_reachable_state_ranges (env : DeviceEnv) (sr : Option ℝ) (bs : ℕ)
    (st : AnalyzerState)
    (h : Relation.ReflTransGen SysStep (init env sr bs) st) :
    (0 ≤ (get_audio_levels st).1 ∧ (get_audio_levels st).1 ≤ 2) ∧
    (0 ≤ (get_audio_levels st).2.1 ∧ (get_audio_levels st).2.1 ≤ 2) ∧
    (0 ≤ (get_audio_levels st).2.2 ∧ (get_audio_levels st).2.2 ≤ 2) ∧
    (get_spectrum st).length = 64 ∧
    (∀ x ∈ get_spectrum st, 0 ≤ x ∧ x ≤ 1.5) := by
  have hinv : StateInv st := by
    induction h with
    | refl => exact StateInv_init env sr bs
    | tail hab hbc ih => exact StateInv_step ih hbc
  obtain ⟨_, _, _, hb, hm, ht, hlen, hspec⟩ := hinv
  exact ⟨hb, hm, ht, hlen, hspec⟩

/-- Witness for C1: the freshly constructed analyzer (empty device
environment, default configuration) is reachable and satisfies the ranges. -/
theorem C1_witness :
    (0 ≤ (get_audio_levels (init ⟨[], []⟩ none 2048)).1 ∧
      (get_audio_levels (init ⟨[], []⟩ none 2048)).1 ≤ 2) ∧
    (0 ≤ (get_audio_levels (init ⟨[], []⟩ none 2048)).2.1 ∧
      (get_audio_levels (init ⟨[], []⟩ none 2048)).2.1 ≤ 2) ∧
    (0 ≤ (get_audio_levels (init ⟨[], []⟩ none 2048)).2.2 ∧
      (get_audio_levels (init ⟨[], []⟩ none 2048)).2.2 ≤ 2) ∧
    (get_spectrum (init ⟨[], []⟩ none 2048)).length = 64 ∧
    (∀ x ∈ get_spectrum (init ⟨[], []⟩ none 2048), 0 ≤ x ∧ x ≤ 1.5) :=
  C1_reachable_state_ranges ⟨[], []⟩ none 2048 (init ⟨[], []⟩ none 2048)
    Relation.ReflTransGen.refl

/-! ### Claim C4: the EMA update -/

/-- Claim C4: the published state after one processing call is the
exponential moving average `state*alpha + raw*(1-alpha)`, with `alpha = 0.7`
applied to each band scalar and `alpha = 0.6` applied independently to each
of the 64 spectrum bins, where the raw values are the scaled band energies
and spectrum bins computed from that call's frame. -/
theorem C4_ema_update (st : AnalyzerState) (data : List ℝ)
    (hs : st.smooth_factor = 0.7) (hss : st.spectrum_smooth = 0.6)
    (hnb : st.num_bins = 64) (hlen : st.spectrum_bins.length = 64) :
    (_process_audio st data).bass = st.bass * 0.7 +
      min (band_energy
          ((rfft (List.zipWith (· * ·) data (hanning data.length))).map Complex.abs)
          (rfftfreq data.length st.sample_rate) 20 250 / 50) 2 * (1 - 0.7) ∧
    (_process_audio st data).mid = st.mid * 0.7 +
      min (band_energy
          ((rfft (List.zipWith (· * ·) data (hanning data.length))).map Complex.abs)
          (rfftfreq data.length st.sample_rate) 250 4000 / 10) 2 * (1 - 0.7) ∧
    (_process_audio st data).treble = st.treble * 0.7 +
      min (band_energy
          ((rfft (List.zipWith (· * ·) data (hanning data.length))).map Complex.abs)
          (rfftfreq data.length st.sample_rate) 4000 16000 / 3) 2 * (1 - 0.7) ∧
    ∀ i : Fin 64, (_process_audio st data).spectrum_bins.getD i 0 =
      st.spectrum_bins.getD i 0 * 0.6 +
      (_compute_spectrum_bins 64
          ((rfft (List.zipWith (· * ·) data (hanning data.length))).map Complex.abs)
          (rfftfreq data.length st.sample_rate)).getD i 0 * (1 - 0.6) := by
  unfold _process_audio
  refine ⟨by rw [hs], by rw [hs], by rw [hs], ?_⟩
  intro i
  have h1 : (i : ℕ) < st.spectrum_bins.length := by rw [hlen]; exact i.isLt
  have h2 : (i : ℕ) <
      (_compute_spectrum_bins st.num_bins
        ((rfft (List.zipWith (· * ·) data (hanning data.length))).map Complex.abs)
        (rfftfreq data.length st.sample_rate)).length := by
    rw [compute_bins_length, hnb]; exact i.isLt
  show (List.zipWith _ st.spectrum_bins _).getD (i : ℕ) 0 = _
  rw [getD_zipWith _ h1 h2, hss, hnb]

/-- Witness for C4 at a freshly constructed analyzer and the empty frame. -/
theorem C4_witness :
    ((init ⟨[], []⟩ none 2048).smooth_factor = 0.7 ∧
      (init ⟨[], []⟩ none 2048).spectrum_smooth = 0.6 ∧
      (init ⟨[], []⟩ none 2048).num_bins = 64 ∧
      (init ⟨[], []⟩ none 2048).spectrum_bins.length = 64) ∧
    ((_process_audio (init ⟨[], []⟩ none 2048) []).bass =
        (init ⟨[], []⟩ none 2048).bass * 0.7 +
        min (band_energy
            ((rfft (List.zipWith (· * ·) ([] : List ℝ) (hanning ([] : List ℝ).length))).map
              Complex.abs)
            (rfftfreq ([] : List ℝ).length (init ⟨[], []⟩ none 2048).sample_rate)
            20 250 / 50) 2 * (1 - 0.7) ∧
      (_process_audio (init ⟨[], []⟩ none 2048) []).mid =
        (init ⟨[], []⟩ none 2048).mid * 0.7 +
        min (band_energy
            ((rfft (List.zipWith (· * ·) ([] : List ℝ) (hanning ([] : List ℝ).length))).map
              Complex.abs)
            (rfftfreq ([] : List ℝ).length (init ⟨[], []⟩ none 2048).sample_rate)
            250 4000 / 10) 2 * (1 - 0.7) ∧
      (_process_audio (init ⟨[], []⟩ none 2048) []).treble =
        (init ⟨[], []⟩ none 2048).treble * 0.7 +
        min (band_energy
            ((rfft (List.zipWith (· * ·) ([] : List ℝ) (hanning ([] : List ℝ).length))).map
              Complex.abs)
            (rfftfreq ([] : List ℝ).length (init ⟨[], []⟩ none 2048).sample_rate)
            4000 16000 / 3) 2 * (1 - 0.7) ∧
      ∀ i : Fin 64, (_process_audio (init ⟨[], []⟩ none 2048) []).spectrum_bins.getD i 0 =
        (init ⟨[], []⟩ none 2048).spectrum_bins.getD i 0 * 0.6 +
        (_compute_spectrum_bins 64
            ((rfft (List.zipWith (· * ·) ([] : List ℝ) (hanning ([] : List ℝ).length))).map
              Complex.abs)
            (rfftfreq ([] : List ℝ).length (init ⟨[], []⟩ none 2048).sample_rate)).getD i 0 *
          (1 - 0.6)) :=
  ⟨⟨rfl, rfl, rfl, by simp [init]⟩,
    C4_ema_update (init ⟨[], []⟩ none 2048) [] rfl rfl rfl (by simp [init])⟩

/-! ### Zero-frame processing (for claims C5 and C7) -/

lemma windowed_zero (m : ℕ) :
    ∀ x ∈ List.zipWith (· * ·) (List.replicate m (0:ℝ)) (hanning m), x = 0 := by
  intro x hx
  obtain ⟨a, ha, b, hb, rfl⟩ := mem_zipWith hx
  rw [List.eq_of_mem_replicate ha, zero_mul]

lemma getD_all_zero {l : List ℝ} (h : ∀ x ∈ l, x = 0) (i : ℕ) : l.getD i 0 = 0 := by
  by_cases hi : i < l.length
  · rw [List.getD_eq_getElem _ _ hi]
    exact h _ (l.getElem_mem hi)
  · exact List.getD_eq_default _ _ (by omega)

lemma rfft_of_zero {w : List ℝ} (h : ∀ x ∈ w, x = 0) : ∀ z ∈ rfft w, z = 0 := by
  intro z hz
  simp only [rfft, List.mem_map, List.mem_range] at hz
  obtain ⟨k, hk, rfl⟩ := hz
  apply Finset.sum_eq_zero
  intro j hj
  rw [getD_all_zero h j]
  simp

lemma fftMag_of_zero {w : List ℝ} (h : ∀ x ∈ w, x = 0) :
    ∀ x ∈ (rfft w).map Complex.abs, x = 0 := by
  intro x hx
  simp only [List.mem_map] at hx
  obtain ⟨z, hz, rfl⟩ := hx
  rw [rfft_of_zero h z hz]
  simp

lemma process_zero_bass (st : AnalyzerState) (m : ℕ) :
    (_process_audio st (List.replicate m 0)).bass = st.bass * st.smooth_factor := by
  unfold _process_audio
  show st.bass * st.smooth_factor + _ * (1 - st.smooth_factor) = _
  rw [List.length_replicate,
    band_energy_of_zero (fftMag_of_zero (windowed_zero m))]
  norm_num

lemma process_zero_mid (st : AnalyzerState) (m : ℕ) :
    (_process_audio st (List.replicate m 0)).mid = st.mid * st.smooth_factor := by
  unfold _process_audio
  show st.mid * st.smooth_factor + _ * (1 - st.smooth_factor) = _
  rw [List.length_replicate,
    band_energy_of_zero (fftMag_of_zero (windowed_zero m))]
  norm_num

lemma process_zero_treble (st : AnalyzerState) (m : ℕ) :
    (_process_audio st (List.replicate m 0)).treble = st.treble * st.smooth_factor := by
  unfold _process_audio
  show st.treble * st.smooth_factor + _ * (1 - st.smooth_factor) = _
  rw [List.length_replicate,
    band_energy_of_zero (fftMag_of_zero (windowed_zero m))]
  norm_num

lemma process_zero_spectrum (st : AnalyzerState) (m : ℕ) {i : ℕ}
    (hi : i < st.spectrum_bins.length) (hi2 : i < st.num_bins) :
    (_process_audio st (List.replicate m 0)).spectrum_bins.getD i 0 =
      st.spectrum_bins.getD i 0 * st.spectrum_smooth := by
  unfold _process_audio
  show (List.zipWith _ st.spectrum_bins _).getD i 0 = _
  rw [getD_zipWith _ hi (by rw [compute_bins_length]; exact hi2),
    List.length_replicate,
    getD_all_zero (compute_bins_of_zero (fftMag_of_zero (windowed_zero m))) i]
  ring

lemma process_meta (st : AnalyzerState) (data : List ℝ) :
    (_process_audio st data).smooth_factor = st.smooth_factor ∧
    (_process_audio st data).spectrum_smooth = st.spectrum_smooth ∧
    (_process_audio st data).num_bins = st.num_bins ∧
    (_process_audio st data).spectrum_bins.length =
      min st.spectrum_bins.length st.num_bins := by
  refine ⟨rfl, rfl, rfl, ?_⟩
  show (List.zipWith _ st.spectrum_bins _).length = _
  rw [List.length_zipWith, compute_bins_length]

/-- `n` consecutive iterations of `_process_audio` on the same frame. -/
noncomputable def processN (st : AnalyzerState) (data : List ℝ) : ℕ → AnalyzerState
  | 0 => st
  | n+1 => _process_audio (processN st data n) data

lemma processN_zero_eq (st : AnalyzerState) (m : ℕ)
    (hs : st.smooth_factor = 0.7) (hss : st.spectrum_smooth = 0.6)
    (hnb : st.num_bins = 64) (hlen : st.spectrum_bins.length = 64) :
    ∀ n : ℕ,
      (processN st (List.replicate m 0) n).smooth_factor = 0.7 ∧
      (processN st (List.replicate m 0) n).spectrum_smooth = 0.6 ∧
      (processN st (List.replicate m 0) n).num_bins = 64 ∧
      (processN st (List.replicate m 0) n).spectrum_bins.length = 64 ∧
      (processN st (List.replicate m 0) n).bass = st.bass * 0.7 ^ n ∧
      (processN st (List.replicate m 0) n).mid = st.mid * 0.7 ^ n ∧
      (processN st (List.replicate m 0) n).treble = st.treble * 0.7 ^ n ∧
      ∀ i : Fin 64, (processN st (List.replicate m 0) n).spectrum_bins.getD i 0 =
        st.spectrum_bins.getD i 0 * 0.6 ^ n := by
  intro n
  induction n with
  | zero =>
    refine ⟨hs, hss, hnb, hlen, by simp [processN], by simp [processN],
      by simp [processN], ?_⟩
    intro i
    simp [processN]
  | succ n ih =>
    obtain ⟨ihs, ihss, ihnb, ihlen, ihb, ihm, iht, ihspec⟩ := ih
    have hmeta := process_meta (processN st (List.replicate m 0) n) (List.replicate m 0)
    simp only [processN]
    refine ⟨by rw [hmeta.1, ihs], by rw [hmeta.2.1, ihss], by rw [hmeta.2.2.1, ihnb],
      by rw [hmeta.2.2.2, ihlen, ihnb]; exact min_self 64, ?_, ?_, ?_, ?_⟩
    · rw [process_zero_bass, ihs, ihb]
      ring
    · rw [process_zero_mid, ihs, ihm]
      ring
    · rw [process_zero_treble, ihs, iht]
      ring
    · intro i
      rw [process_zero_spectrum _ m (by rw [ihlen]; exact i.isLt)
          (by rw [ihnb]; exact i.isLt), ihss, ihspec i]
      ring

/-- Claim C5: starting from any smoothed state (with the constructor-set
smoothing factors and a well-formed 64-bin spectrum), processing `n`
consecutive all-zero frames leaves each band scalar at most its initial
value times `0.7 ^ n` and each spectrum bin at most its initial value times
`0.6 ^ n` (in fact equality holds, so the smoothed values converge to 0). -/
theorem C5_zero_input_convergence (st : AnalyzerState) (m n : ℕ)
    (hs : st.smooth_factor = 0.7) (hss : st.spectrum_smooth = 0.6)
    (hnb : st.num_bins = 64) (hlen : st.spectrum_bins.length = 64) :
    (processN st (List.replicate m 0) n).bass ≤ st.bass * 0.7 ^ n ∧
    (processN st (List.replicate m 0) n).mid ≤ st.mid * 0.7 ^ n ∧
    (processN st (List.replicate m 0) n).treble ≤ st.treble * 0.7 ^ n ∧
    ∀ i : Fin 64, (processN st (List.replicate m 0) n).spectrum_bins.getD i 0 ≤
      st.spectrum_bins.getD i 0 * 0.6 ^ n := by
  obtain ⟨-, -, -, -, hb, hm, ht, hspec⟩ := processN_zero_eq st m hs hss hnb hlen n
  exact ⟨le_of_eq hb, le_of_eq hm, le_of_eq ht, fun i => le_of_eq (hspec i)⟩

/-- Witness for C5: three all-zero frames from the freshly constructed
analyzer. -/
theorem C5_witness :
    ((init ⟨[], []⟩ none 2048).smooth_factor = 0.7 ∧
      (init ⟨[], []⟩ none 2048).spectrum_smooth = 0.6 ∧
      (init ⟨[], []⟩ none 2048).num_bins = 64 ∧
      (init ⟨[], []⟩ none 2048).spectrum_bins.length = 64) ∧
    ((processN (init ⟨[], []⟩ none 2048) (List.replicate 2048 0) 3).bass ≤
        (init ⟨[], []⟩ none 2048).bass * 0.7 ^ 3 ∧
      (processN (init ⟨[], []⟩ none 2048) (List.replicate 2048 0) 3).mid ≤
        (init ⟨[], []⟩ none 2048).mid * 0.7 ^ 3 ∧
      (processN (init ⟨[], []⟩ none 2048) (List.replicate 2048 0) 3).treble ≤
        (init ⟨[], []⟩ none 2048).treble * 0.7 ^ 3 ∧
      ∀ i : Fin 64,
        (processN (init ⟨[], []⟩ none 2048) (List.replicate 2048 0) 3).spectrum_bins.getD i 0 ≤
        (init ⟨[], []⟩ none 2048).spectrum_bins.getD i 0 * 0.6 ^ 3) :=
  ⟨⟨rfl, rfl, rfl, by simp [init]⟩,
    C5_zero_input_convergence (init ⟨[], []⟩ none 2048) 2048 3 rfl rfl rfl
      (by simp [init])⟩

/-! ### Claim C2: band-energy selection, divisors, clamp, boundary policy -/

lemma rfftfreq_length (N : ℕ) (sr : ℝ) : (rfftfreq N sr).length = N / 2 + 1 := by
  simp [rfftfreq]

lemma rfftfreq_getD {N k : ℕ} (sr : ℝ) (hk : k < N / 2 + 1) :
    (rfftfreq N sr).getD k 0 = (k : ℝ) * sr / (N : ℝ) := by
  unfold rfftfreq
  exact getD_range_map _ hk

lemma zip_filter_map (p : ℝ → Bool) :
    ∀ (l1 l2 : List ℝ), l1.length = l2.length →
      ((l1.zip l2).filter fun q => p q.1).map Prod.snd =
        ((List.range l1.length).filter fun k => p (l1.getD k 0)).map fun k => l2.getD k 0 := by
  intro l1
  induction l1 with
  | nil => intro l2 h; simp
  | cons a t ih =>
    intro l2 h
    cases l2 with
    | nil => simp at h
    | cons b t2 =>
      have h2 : t.length = t2.length := by simpa using h
      have e1 : ((fun k : ℕ => (b :: t2).getD k 0) ∘ Nat.succ) =
          fun k : ℕ => t2.getD k 0 := rfl
      have e2 : ((fun k : ℕ => p ((a :: t).getD k 0)) ∘ Nat.succ) =
          fun k : ℕ => p (t.getD k 0) := rfl
      rw [List.zip_cons_cons, List.length_cons, List.range_succ_eq_map]
      rw [List.filter_cons, List.filter_cons]
      by_cases hp : p a
      · simp only [hp, if_true, List.map_cons, List.getD_cons_zero, List.filter_map,
          List.map_map, e1, e2]
        rw [ih t2 h2]
      · simp only [hp, if_false, List.getD_cons_zero, Bool.false_eq_true, List.filter_map,
          List.map_map, e1, e2]
        rw [ih t2 h2]

/-- Modelled from the spec wording of C2: the indices `k` of the FFT bins
whose frequency `k * sample_rate / N` lies in the half-open range
`[low, high)`. -/
noncomputable def spec_band_bins (N : ℕ) (sr : ℝ) (low high : ℝ) : List ℕ :=
  (List.range (N / 2 + 1)).filter fun k =>
    decide (low ≤ (k : ℝ) * sr / (N : ℝ)) && decide ((k : ℝ) * sr / (N : ℝ) < high)

/-- Modelled from the spec wording of C2: the average of the FFT magnitudes
at exactly those bin indices, `0.0` when the range contains no bin. -/
noncomputable def spec_band_average (fft : List ℝ) (N : ℕ) (sr : ℝ) (low high : ℝ) : ℝ :=
  if (spec_band_bins N sr low high).length = 0 then 0
  else ((spec_band_bins N sr low high).map fun k => fft.getD k 0).sum /
    ((spec_band_bins N sr low high).length : ℝ)

lemma band_sel_eq_spec (fft : List ℝ) {N : ℕ} (sr : ℝ) (low high : ℝ)
    (hlen : fft.length = N / 2 + 1) :
    band_sel fft (rfftfreq N sr) low high =
      (spec_band_bins N sr low high).map fun k => fft.getD k 0 := by
  unfold band_sel
  rw [zip_filter_map (bandMask low high) (rfftfreq N sr) fft
    (by rw [hlen, rfftfreq_length])]
  unfold spec_band_bins
  rw [rfftfreq_length]
  congr 1
  apply List.filter_congr
  intro k hk
  rw [List.mem_range] at hk
  rw [rfftfreq_getD sr hk]
  rfl

/-- Claim C2: the band-energy computation averages the FFT magnitudes of
exactly those bin indices `k` with `low ≤ k*sample_rate/N < high` (0.0 when
the half-open range contains no bin); the published band values divide the
three band energies over [20,250), [250,4000), [4000,16000) by 50, 10, 3
respectively and clamp at 2.0; and a frequency exactly at a band edge
belongs to the upper band (half-open semantics), in particular 250 Hz counts
toward mid, not bass. -/
theorem C2_band_energy_selection (N : ℕ) (sr : ℝ) (fft : List ℝ)
    (hlen : fft.length = N / 2 + 1) :
    (∀ low high : ℝ, band_energy fft (rfftfreq N sr) low high =
      spec_band_average fft N sr low high) ∧
    (∀ (low high : ℝ) (k : ℕ), k ∈ spec_band_bins N sr low high ↔
      k < N / 2 + 1 ∧ low ≤ (k : ℝ) * sr / (N : ℝ) ∧ (k : ℝ) * sr / (N : ℝ) < high) ∧
    (bandMask 20 250 20 = true ∧ bandMask 20 250 250 = false ∧
      bandMask 250 4000 250 = true ∧ bandMask 250 4000 4000 = false ∧
      bandMask 4000 16000 4000 = true ∧ bandMask 4000 16000 16000 = false) ∧
    (∀ (st : AnalyzerState) (data : List ℝ),
      (_process_audio st data).bass = st.bass * st.smooth_factor +
        min (band_energy
            ((rfft (List.zipWith (· * ·) data (hanning data.length))).map Complex.abs)
            (rfftfreq data.length st.sample_rate) 20 250 / 50) 2 *
          (1 - st.smooth_factor) ∧
      (_process_audio st data).mid = st.mid * st.smooth_factor +
        min (band_energy
            ((rfft (List.zipWith (· * ·) data (hanning data.length))).map Complex.abs)
            (rfftfreq data.length st.sample_rate) 250 4000 / 10) 2 *
          (1 - st.smooth_factor) ∧
      (_process_audio st data).treble = st.treble * st.smooth_factor +
        min (band_energy
            ((rfft (List.zipWith (· * ·) data (hanning data.length))).map Complex.abs)
            (rfftfreq data.length st.sample_rate) 4000 16000 / 3) 2 *
          (1 - st.smooth_factor)) := by
  refine ⟨?_, ?_, ?_, ?_⟩
  · intro low high
    unfold band_energy spec_band_average
    rw [band_sel_eq_spec fft sr low high hlen]
    simp only [List.length_map]
  · intro low high k
    simp [spec_band_bins, and_assoc]
  · refine ⟨?_, ?_, ?_, ?_, ?_, ?_⟩ <;> norm_num [bandMask]
  · intro st data
    exact ⟨rfl, rfl, rfl⟩

/-- Witness for C2 at `N = 64`, `sample_rate = 16000` (so bin 1 sits exactly
at 250 Hz) and a constant magnitude array of the matching length 33. -/
theorem C2_witness :
    (List.replicate 33 (1:ℝ)).length = 64 / 2 + 1 ∧
    ((∀ low high : ℝ, band_energy (List.replicate 33 (1:ℝ)) (rfftfreq 64 16000) low high =
      spec_band_average (List.replicate 33 (1:ℝ)) 64 16000 low high) ∧
    (∀ (low high : ℝ) (k : ℕ), k ∈ spec_band_bins 64 16000 low high ↔
      k < 64 / 2 + 1 ∧ low ≤ (k : ℝ) * 16000 / (64 : ℝ) ∧
        (k : ℝ) * 16000 / (64 : ℝ) < high) ∧
    (bandMask 20 250 20 = true ∧ bandMask 20 250 250 = false ∧
      bandMask 250 4000 250 = true ∧ bandMask 250 4000 4000 = false ∧
      bandMask 4000 16000 4000 = true ∧ bandMask 4000 16000 16000 = false) ∧
    (∀ (st : AnalyzerState) (data : List ℝ),
      (_process_audio st data).bass = st.bass * st.smooth_factor +
        min (band_energy
            ((rfft (List.zipWith (· * ·) data (hanning data.length))).map Complex.abs)
            (rfftfreq data.length st.sample_rate) 20 250 / 50) 2 *
          (1 - st.smooth_factor) ∧
      (_process_audio st data).mid = st.mid * st.smooth_factor +
        min (band_energy
            ((rfft (List.zipWith (· * ·) data (hanning data.length))).map Complex.abs)
            (rfftfreq data.length st.sample_rate) 250 4000 / 10) 2 *
          (1 - st.smooth_factor) ∧
      (_process_audio st data).treble = st.treble * st.smooth_factor +
        min (band_energy
            ((rfft (List.zipWith (· * ·) data (hanning data.length))).map Complex.abs)
            (rfftfreq data.length st.sample_rate) 4000 16000 / 3) 2 *
          (1 - st.smooth_factor))) :=
  ⟨by decide, C2_band_energy_selection 64 16000 (List.replicate 33 1) (by simp)⟩

/-! ### Claim C3: spectrum binning, geometric edges, linear reference -/

lemma log_edges_getD {i : ℕ} (hi : i < 65) :
    (log_edges 64).getD i 0 = 20 * ((16000/20 : ℝ)) ^ ((i : ℝ) / 64) := by
  unfold log_edges linspace
  rw [List.map_map]
  rw [getD_range_map _ hi]
  show (10:ℝ) ^ (Real.logb 10 20 +
    (i:ℝ) * ((Real.logb 10 16000 - Real.logb 10 20) / (((64+1 : ℕ):ℝ) - 1))) = _
  have h800 : Real.logb 10 16000 - Real.logb 10 20 = Real.logb 10 (16000/20) := by
    rw [Real.logb_div (by norm_num) (by norm_num)]
  have hden : (((64+1 : ℕ):ℝ) - 1) = 64 := by norm_num
  rw [h800, hden]
  have hmul : Real.logb 10 20 + (i:ℝ) * (Real.logb 10 (16000/20) / 64)
      = Real.logb 10 20 + Real.logb 10 (16000/20) * ((i:ℝ)/64) := by ring
  rw [hmul, Real.rpow_add (by norm_num), Real.rpow_mul (by norm_num),
    Real.rpow_logb (by norm_num) (by norm_num) (by norm_num),
    Real.rpow_logb (by norm_num) (by norm_num) (by norm_num)]

lemma linspace_ref_getD {i : ℕ} (hi : i < 64) :
    (linspace 40 3 64).getD i 0 = 40 - 37 * (i : ℝ) / 63 := by
  unfold linspace
  rw [getD_range_map _ hi]
  norm_num
  ring

/-- Modelled from the spec wording of C3: bin `i` averages the magnitudes
with frequency in `[20*(16000/20)^(i/64), 20*(16000/20)^((i+1)/64))` (0.0 if
empty), divides by the linear reference `40 - 37*i/63` (40.0 at bin 0 down
to 3.0 at bin 63) and clamps at 1.5; exactly 64 bins. -/
noncomputable def spec_spectrum_bins (fft freqs : List ℝ) : List ℝ :=
  (List.range 64).map fun i : ℕ =>
    min (band_energy fft freqs (20 * ((16000/20 : ℝ)) ^ ((i : ℝ) / 64))
        (20 * ((16000/20 : ℝ)) ^ (((i : ℝ) + 1) / 64)) /
      (40 - 37 * (i : ℝ) / 63)) 1.5

/-- Claim C3: the spectrum computation uses the 65 geometric edges
`20*(16000/20)^(i/64)`, averages magnitudes over the half-open edge
intervals (0.0 if empty), normalizes bin `i` by the reference falling
linearly from 40.0 at bin 0 to 3.0 at bin 63, clamps at 1.5, and produces
exactly 64 values. -/
theorem C3_spectrum_binning :
    (∀ i : Fin 65, (log_edges 64).getD i 0 =
      20 * ((16000/20 : ℝ)) ^ ((i : ℝ) / 64)) ∧
    (∀ i : Fin 64, (linspace 40 3 64).getD i 0 = 40 - 37 * (i : ℝ) / 63) ∧
    ((linspace 40 3 64).getD 0 0 = 40 ∧ (linspace 40 3 64).getD 63 0 = 3) ∧
    (∀ fft freqs : List ℝ,
      _compute_spectrum_bins 64 fft freqs = spec_spectrum_bins fft freqs) ∧
    (∀ fft freqs : List ℝ, (_compute_spectrum_bins 64 fft freqs).length = 64) := by
  refine ⟨fun i => log_edges_getD i.isLt, fun i => linspace_ref_getD i.isLt, ?_, ?_, ?_⟩
  · constructor
    · rw [linspace_ref_getD (by norm_num)]
      norm_num
    · rw [linspace_ref_getD (by norm_num)]
      norm_num
  · intro fft freqs
    unfold _compute_spectrum_bins spec_spectrum_bins
    apply List.map_congr_left
    intro i hi
    rw [List.mem_range] at hi
    rw [log_edges_getD (by omega), log_edges_getD (by omega),
      linspace_ref_getD hi]
    have : ((i + 1 : ℕ) : ℝ) = (i : ℝ) + 1 := by push_cast; ring
    rw [this]
  · intro fft freqs
    exact compute_bins_length 64 fft freqs

/-! ### Claim C6: degraded mode when no device resolves -/

/-- Invariant of an analyzer constructed without a resolvable device. -/
def NoDeviceInv (st : AnalyzerState) : Prop :=
  st.device_index = none ∧ st.running = false ∧ st.thread_spawned = false ∧
  st.bass = 0 ∧ st.mid = 0 ∧ st.treble = 0 ∧
  st.spectrum_bins = List.replicate 64 0

lemma NoDeviceInv_init {env : DeviceEnv} (sr : Option ℝ) (bs : ℕ)
    (h : _find_loopback_device env = none) : NoDeviceInv (init env sr bs) := by
  unfold NoDeviceInv init
  rw [h]
  exact ⟨rfl, rfl, rfl, rfl, rfl, rfl, rfl⟩

lemma NoDeviceInv_step {a b : AnalyzerState} (h : NoDeviceInv a)
    (hs : SysStep a b) : NoDeviceInv b := by
  cases hs with
  | startStep =>
    unfold start
    rw [h.1]
    exact ⟨rfl, h.2.1, h.2.2.1, h.2.2.2.1, h.2.2.2.2.1, h.2.2.2.2.2.1,
      h.2.2.2.2.2.2⟩
  | stopStep =>
    exact ⟨h.1, rfl, h.2.2.1, h.2.2.2.1, h.2.2.2.2.1, h.2.2.2.2.2.1, h.2.2.2.2.2.2⟩
  | frameStep data hr htr =>
    rw [h.2.2.1] at htr
    simp at htr

lemma stop_noop {st : AnalyzerState} (h : st.running = false) : stop st = st := by
  cases st
  unfold stop
  simp_all

/-- Claim C6: if device resolution found no device, `start()` spawns no
capture thread and logs a warning, every later reachable state still returns
`(0,0,0)` levels and a 64-zero spectrum, and `stop()` is a no-op. -/
theorem C6_no_device_degraded_mode (env : DeviceEnv) (sr : Option ℝ) (bs : ℕ)
    (st : AnalyzerState) (hdev : _find_loopback_device env = none)
    (h : Relation.ReflTransGen SysStep (init env sr bs) st) :
    (start (init env sr bs)).thread_spawned = false ∧
    (start (init env sr bs)).warned_no_device = true ∧
    st.thread_spawned = false ∧
    get_audio_levels st = (0, 0, 0) ∧
    get_spectrum st = List.replicate 64 0 ∧
    stop st = st := by
  have hinv : NoDeviceInv st := by
    induction h with
    | refl => exact NoDeviceInv_init sr bs hdev
    | tail hab hbc ih => exact NoDeviceInv_step ih hbc
  have h0 : NoDeviceInv (init env sr bs) := NoDeviceInv_init sr bs hdev
  refine ⟨?_, ?_, hinv.2.2.1, ?_, hinv.2.2.2.2.2.2, stop_noop hinv.2.1⟩
  · unfold start
    rw [h0.1]
    exact h0.2.2.1
  · unfold start
    rw [h0.1]
  · unfold get_audio_levels
    rw [hinv.2.2.2.1, hinv.2.2.2.2.1, hinv.2.2.2.2.2.1]

/-- Witness for C6: the empty device environment resolves no device, and the
freshly constructed analyzer is reachable. -/
theorem C6_witness :
    _find_loopback_device ⟨[], []⟩ = none ∧
    ((start (init ⟨[], []⟩ none 2048)).thread_spawned = false ∧
      (start (init ⟨[], []⟩ none 2048)).warned_no_device = true ∧
      (init ⟨[], []⟩ none 2048).thread_spawned = false ∧
      get_audio_levels (init ⟨[], []⟩ none 2048) = (0, 0, 0) ∧
      get_spectrum (init ⟨[], []⟩ none 2048) = List.replicate 64 0 ∧
      stop (init ⟨[], []⟩ none 2048) = init ⟨[], []⟩ none 2048) :=
  ⟨rfl, C6_no_device_degraded_mode ⟨[], []⟩ none 2048 (init ⟨[], []⟩ none 2048)
    rfl Relation.ReflTransGen.refl⟩

/-! ### Claim C7: there is no frame-length check in `_process_audio` -/

lemma hanning_two : hanning 2 = [0, 0] := by
  unfold hanning
  rw [if_neg (by norm_num)]
  rw [show List.range 2 = [0, 1] by rfl]
  simp only [List.map_cons, List.map_nil]
  norm_num [Real.cos_two_pi]

lemma windowed_one_one_zero :
    ∀ x ∈ List.zipWith (· * ·) [(1:ℝ), 1] (hanning ([(1:ℝ), 1]).length), x = 0 := by
  rw [show ([(1:ℝ), 1]).length = 2 by rfl, hanning_two]
  intro x hx
  simp only [List.zipWith_cons_cons, List.zipWith_nil_right, List.mem_cons,
    List.mem_singleton, mul_zero, List.zipWith_nil, List.not_mem_nil, or_false] at hx
  rcases hx with rfl | rfl <;> rfl

/-- Counterexample to claim C7 as stated: a frame of length 2 (different
from the configured buffer size 2048) is not dropped — processing it changes
the smoothed bass value of a state whose bass is 1 (the all-zero Hann window
of length 2 zeroes the frame, so the EMA decays the state instead of
retaining it). -/
theorem C7_counterexample :
    ([(1:ℝ), 1]).length ≠
      ({ init ⟨[], []⟩ none 2048 with bass := 1 } : AnalyzerState).buffer_size ∧
    (_process_audio { init ⟨[], []⟩ none 2048 with bass := 1 } [1, 1]).bass ≠
      ({ init ⟨[], []⟩ none 2048 with bass := 1 } : AnalyzerState).bass := by
  constructor
  · intro hcontra
    have : (2:ℕ) = 2048 := hcontra
    omega
  · unfold _process_audio
    show ({ init ⟨[], []⟩ none 2048 with bass := 1 } : AnalyzerState).bass * _ +
      _ * _ ≠ _
    rw [band_energy_of_zero (fftMag_of_zero windowed_one_one_zero)]
    show (1:ℝ) * 0.7 + min ((0:ℝ)/50) 2 * (1 - 0.7) ≠ 1
    norm_num

/-- Claim C7 (amended): `_process_audio` performs no frame-length check: a
frame whose length differs from the configured buffer size is processed
through the same window/FFT/EMA path as any other frame (its result is the
ordinary EMA update, not the retained previous state), and no anomaly is
logged.  Frames produced by the capture loop itself always have exactly
`buffer_size` samples, so the anomaly never arises there. -/
theorem C7_no_length_check (st : AnalyzerState) (data : List ℝ)
    (hne : data.length ≠ st.buffer_size) :
    (_process_audio st data).bass = st.bass * st.smooth_factor +
      min (band_energy
          ((rfft (List.zipWith (· * ·) data (hanning data.length))).map Complex.abs)
          (rfftfreq data.length st.sample_rate) 20 250 / 50) 2 *
        (1 - st.smooth_factor) ∧
    (_process_audio st data).mid = st.mid * st.smooth_factor +
      min (band_energy
          ((rfft (List.zipWith (· * ·) data (hanning data.length))).map Complex.abs)
          (rfftfreq data.length st.sample_rate) 250 4000 / 10) 2 *
        (1 - st.smooth_factor) ∧
    (_process_audio st data).treble = st.treble * st.smooth_factor +
      min (band_energy
          ((rfft (List.zipWith (· * ·) data (hanning data.length))).map Complex.abs)
          (rfftfreq data.length st.sample_rate) 4000 16000 / 3) 2 *
        (1 - st.smooth_factor) :=
  ⟨rfl, rfl, rfl⟩

/-- Witness for the amended C7 at a length-2 frame against the default
buffer size 2048. -/
theorem C7_witness :
    ([(1:ℝ), 1]).length ≠ (init ⟨[], []⟩ none 2048).buffer_size ∧
    ((_process_audio (init ⟨[], []⟩ none 2048) [1, 1]).bass =
      (init ⟨[], []⟩ none 2048).bass * (init ⟨[], []⟩ none 2048).smooth_factor +
      min (band_energy
          ((rfft (List.zipWith (· * ·) [(1:ℝ), 1]
            (hanning ([(1:ℝ), 1]).length))).map Complex.abs)
          (rfftfreq ([(1:ℝ), 1]).length (init ⟨[], []⟩ none 2048).sample_rate)
          20 250 / 50) 2 *
        (1 - (init ⟨[], []⟩ none 2048).smooth_factor) ∧
    (_process_audio (init ⟨[], []⟩ none 2048) [1, 1]).mid =
      (init ⟨[], []⟩ none 2048).mid * (init ⟨[], []⟩ none 2048).smooth_factor +
      min (band_energy
          ((rfft (List.zipWith (· * ·) [(1:ℝ), 1]
            (hanning ([(1:ℝ), 1]).length))).map Complex.abs)
          (rfftfreq ([(1:ℝ), 1]).length (init ⟨[], []⟩ none 2048).sample_rate)
          250 4000 / 10) 2 *
        (1 - (init ⟨[], []⟩ none 2048).smooth_factor) ∧
    (_process_audio (init ⟨[], []⟩ none 2048) [1, 1]).treble =
      (init ⟨[], []⟩ none 2048).treble * (init ⟨[], []⟩ none 2048).smooth_factor +
      min (band_energy
          ((rfft (List.zipWith (· * ·) [(1:ℝ), 1]
            (hanning ([(1:ℝ), 1]).length))).map Complex.abs)
          (rfftfreq ([(1:ℝ), 1]).length (init ⟨[], []⟩ none 2048).sample_rate)
          4000 16000 / 3) 2 *
        (1 - (init ⟨[], []⟩ none 2048).smooth_factor)) :=
  ⟨by norm_num [init], C7_no_length_check (init ⟨[], []⟩ none 2048) [1, 1]
    (by norm_num [init])⟩

/-! ### Claim C8: the construction-time configuration inputs -/

/-- Counterexample to claim C8 as stated: in the source the constructor
signature is `__init__(self, sample_rate=None, buffer_size=2048)` — its
entire input space is the device environment, the optional sample rate and
the buffer size.  At this (and every) constructor input the smoothing
factors are the fixed literals `0.7`/`0.6` assigned in the constructor body
(audio.py:31-32): they are hardcoded, not construction-time tunables. -/
theorem C8_counterexample :
    (init ⟨[], []⟩ (some 48000) 1024).smooth_factor = 0.7 ∧
    (init ⟨[], []⟩ (some 48000) 1024).spectrum_smooth = 0.6 :=
  ⟨rfl, rfl⟩

/-- Claim C8 (amended): the constructor accepts an optional sample-rate
override (when absent, the resolved device's default rate is used, and 44100
when no device resolves) and a buffer size defaulting to 2048, both
construction-time tunables; the two smoothing factors are not constructor
parameters — they are fixed at construction to 0.7 (bands) and 0.6
(spectrum). -/
theorem C8_constructor_configuration :
    (∀ (env : DeviceEnv) (sr : ℝ) (bs : ℕ),
      (init env (some sr) bs).sample_rate = sr) ∧
    (∀ (env : DeviceEnv) (sr : Option ℝ) (bs : ℕ),
      (init env sr bs).buffer_size = bs) ∧
    (∀ (env : DeviceEnv) (d : DeviceInfo) (bs : ℕ),
      _find_loopback_device env = some d →
      (init env none bs).sample_rate = (d.defaultSampleRate : ℝ)) ∧
    (∀ (env : DeviceEnv) (bs : ℕ), _find_loopback_device env = none →
      (init env none bs).sample_rate = 44100) ∧
    (∀ env : DeviceEnv, init env = init env none 2048) ∧
    (∀ (env : DeviceEnv) (sr : Option ℝ) (bs : ℕ),
      (init env sr bs).smooth_factor = 0.7 ∧
      (init env sr bs).spectrum_smooth = 0.6) := by
  refine ⟨fun env sr bs => rfl, fun env sr bs => rfl, ?_, ?_,
    fun env => rfl, fun env sr bs => ⟨rfl, rfl⟩⟩
  · intro env d bs h
    unfold init
    rw [h]
  · intro env bs h
    unfold init
    rw [h]

/-- Witness for the amended C8: a one-API, two-device environment whose
loopback device (default rate 48000) resolves, and the empty environment
where the last-resort 44100 applies. -/
theorem C8_witness :
    _find_loopback_device
      ⟨[⟨0, wasapiName, 7⟩],
        [⟨7, ['S', 'p', 'k'], 0, false, 0, 44100⟩,
          ⟨9, ['S', 'p', 'k', 'L'], 0, true, 2, 48000⟩]⟩ =
      some ⟨9, ['S', 'p', 'k', 'L'], 0, true, 2, 48000⟩ ∧
    (init ⟨[⟨0, wasapiName, 7⟩],
        [⟨7, ['S', 'p', 'k'], 0, false, 0, 44100⟩,
          ⟨9, ['S', 'p', 'k', 'L'], 0, true, 2, 48000⟩]⟩ none 512).sample_rate =
      ((48000:ℤ) : ℝ) ∧
    _find_loopback_device ⟨[], []⟩ = none ∧
    (init ⟨[], []⟩ none 512).sample_rate = 44100 ∧
    (init ⟨[], []⟩ (some 96000) 512).sample_rate = 96000 ∧
    (init ⟨[], []⟩ none 512).buffer_size = 512 := by
  refine ⟨rfl, ?_, rfl, ?_, ?_, ?_⟩
  · exact C8_constructor_configuration.2.2.1 _
      ⟨9, ['S', 'p', 'k', 'L'], 0, true, 2, 48000⟩ 512 rfl
  · exact C8_constructor_configuration.2.2.2.1 ⟨[], []⟩ 512 rfl
  · exact C8_constructor_configuration.1 ⟨[], []⟩ 96000 512
  · exact C8_constructor_configuration.2.1 ⟨[], []⟩ none 512

/-! ### Claim C9: no torn reads (interleaving model of the lock discipline)

The shared state and the lock usage of `AudioAnalyzer` are modelled as a
small-step interleaving semantics: one writer thread executes the update
blocks of `_process_audio` (audio.py:166-172), each consisting of an
acquire, four separate field writes and a release; each reader thread
executes `get_audio_levels`/`get_spectrum` calls (audio.py:192-198), each an
acquire, per-field reads and a release.  An `acq` step requires the lock to
be free; every interleaving of the threads respecting that rule is a
behaviour of the model.  Releases, writes and reads are deliberately not
guarded by a lock-ownership side condition: that each thread only touches
the fields while it holds the lock is derived from the program structure in
the invariant, not assumed by the semantics. -/

/-- The shared mutable fields guarded by `self.lock`. -/
structure Mem where
  bass : ℝ
  mid : ℝ
  treble : ℝ
  spectrum : List ℝ

/-- Atomic instructions of the two threads. -/
inductive Instr
  | acq
  | rel
  | wrBass (v : ℝ)
  | wrMid (v : ℝ)
  | wrTre (v : ℝ)
  | wrSpec (v : List ℝ)
  | rdBass
  | rdMid
  | rdTre
  | rdSpec

/-- The writer's critical section for one update `u`. -/
def wsection (u : Mem) : List Instr :=
  [.acq, .wrBass u.bass, .wrMid u.mid, .wrTre u.treble, .wrSpec u.spectrum, .rel]

def wprog (us : List Mem) : List Instr := us.flatMap wsection

/-- One reader call: `true` is `get_audio_levels`, `false` is `get_spectrum`. -/
def rcall : Bool → List Instr
  | true => [.acq, .rdBass, .rdMid, .rdTre, .rel]
  | false => [.acq, .rdSpec, .rel]

def rprog (cs : List Bool) : List Instr := cs.flatMap rcall

inductive Owner
  | writer
  | reader (t : ℕ)

structure RState where
  rcode : List Instr
  regB : ℝ
  regM : ℝ

structure Config where
  mem : Mem
  lock : Option Owner
  wcode : List Instr
  readers : List RState
  obsLevels : List (ℝ × ℝ × ℝ)
  obsSpec : List (List ℝ)

inductive Step : Config → Config → Prop
  | wAcq {c : Config} {rest : List Instr} :
      c.wcode = .acq :: rest → c.lock = none →
      Step c { c with wcode := rest, lock := some .writer }
  | wRel {c : Config} {rest : List Instr} :
      c.wcode = .rel :: rest →
      Step c { c with wcode := rest, lock := none }
  | wWrBass {c : Config} {v : ℝ} {rest : List Instr} :
      c.wcode = .wrBass v :: rest →
      Step c { c with wcode := rest, mem := { c.mem with bass := v } }
  | wWrMid {c : Config} {v : ℝ} {rest : List Instr} :
      c.wcode = .wrMid v :: rest →
      Step c { c with wcode := rest, mem := { c.mem with mid := v } }
  | wWrTre {c : Config} {v : ℝ} {rest : List Instr} :
      c.wcode = .wrTre v :: rest →
      Step c { c with wcode := rest, mem := { c.mem with treble := v } }
  | wWrSpec {c : Config} {v : List ℝ} {rest : List Instr} :
      c.wcode = .wrSpec v :: rest →
      Step c { c with wcode := rest, mem := { c.mem with spectrum := v } }
  | rAcq {c : Config} (t : ℕ) (ht : t < c.readers.length) {rest : List Instr} :
      (c.readers.get ⟨t, ht⟩).rcode = .acq :: rest → c.lock = none →
      Step c { c with
        readers := c.readers.set t ({ c.readers.get ⟨t, ht⟩ with rcode := rest }),
        lock := some (.reader t) }
  | rRel {c : Config} (t : ℕ) (ht : t < c.readers.length) {rest : List Instr} :
      (c.readers.get ⟨t, ht⟩).rcode = .rel :: rest →
      Step c { c with
        readers := c.readers.set t ({ c.readers.get ⟨t, ht⟩ with rcode := rest }),
        lock := none }
  | rRdBass {c : Config} (t : ℕ) (ht : t < c.readers.length) {rest : List Instr} :
      (c.readers.get ⟨t, ht⟩).rcode = .rdBass :: rest →
      Step c { c with
        readers := c.readers.set t
          ({ c.readers.get ⟨t, ht⟩ with rcode := rest, regB := c.mem.bass }) }
  | rRdMid {c : Config} (t : ℕ) (ht : t < c.readers.length) {rest : List Instr} :
      (c.readers.get ⟨t, ht⟩).rcode = .rdMid :: rest →
      Step c { c with
        readers := c.readers.set t
          ({ c.readers.get ⟨t, ht⟩ with rcode := rest, regM := c.mem.mid }) }
  | rRdTre {c : Config} (t : ℕ) (ht : t < c.readers.length) {rest : List Instr} :
      (c.readers.get ⟨t, ht⟩).rcode = .rdTre :: rest →
      Step c { c with
        readers := c.readers.set t ({ c.readers.get ⟨t, ht⟩ with rcode := rest }),
        obsLevels := ((c.readers.get ⟨t, ht⟩).regB, (c.readers.get ⟨t, ht⟩).regM,
          c.mem.treble) :: c.obsLevels }
  | rRdSpec {c : Config} (t : ℕ) (ht : t < c.readers.length) {rest : List Instr} :
      (c.readers.get ⟨t, ht⟩).rcode = .rdSpec :: rest →
      Step c { c with
        readers := c.readers.set t ({ c.readers.get ⟨t, ht⟩ with rcode := rest }),
        obsSpec := c.mem.spectrum :: c.obsSpec }

/-- The memory contents after a prefix of complete updates: each update
overwrites every field, so it is the last update of the prefix (or the
initial memory). -/
def memAfter (m0 : Mem) (us : List Mem) : Mem := us.foldl (fun _ u => u) m0

inductive WPhase (m0 : Mem) (us : List Mem) : List Instr → Mem → Bool → Prop
  | boundary (us1 us2 : List Mem) (h : us = us1 ++ us2) :
      WPhase m0 us (wprog us2) (memAfter m0 us1) false
  | atBass (us1 : List Mem) (u : Mem) (us2 : List Mem) (h : us = us1 ++ u :: us2) :
      WPhase m0 us
        (.wrBass u.bass :: .wrMid u.mid :: .wrTre u.treble ::
          .wrSpec u.spectrum :: .rel :: wprog us2)
        (memAfter m0 us1) true
  | atMid (us1 : List Mem) (u : Mem) (us2 : List Mem) (h : us = us1 ++ u :: us2) :
      WPhase m0 us
        (.wrMid u.mid :: .wrTre u.treble :: .wrSpec u.spectrum :: .rel :: wprog us2)
        { memAfter m0 us1 with bass := u.bass } true
  | atTre (us1 : List Mem) (u : Mem) (us2 : List Mem) (h : us = us1 ++ u :: us2) :
      WPhase m0 us (.wrTre u.treble :: .wrSpec u.spectrum :: .rel :: wprog us2)
        { memAfter m0 us1 with bass := u.bass, mid := u.mid } true
  | atSpec (us1 : List Mem) (u : Mem) (us2 : List Mem) (h : us = us1 ++ u :: us2) :
      WPhase m0 us (.wrSpec u.spectrum :: .rel :: wprog us2)
        { memAfter m0 us1 with bass := u.bass, mid := u.mid, treble := u.treble } true
  | atRel (us1 : List Mem) (u : Mem) (us2 : List Mem) (h : us = us1 ++ u :: us2) :
      WPhase m0 us (.rel :: wprog us2) u true

inductive RPhase (cs : List Bool) (mem : Mem) : List Instr → ℝ → ℝ → Bool → Prop
  | boundary (cs1 cs2 : List Bool) (h : cs = cs1 ++ cs2) (rB rM : ℝ) :
      RPhase cs mem (rprog cs2) rB rM false
  | lvAtBass (cs1 cs2 : List Bool) (h : cs = cs1 ++ true :: cs2) (rB rM : ℝ) :
      RPhase cs mem (.rdBass :: .rdMid :: .rdTre :: .rel :: rprog cs2) rB rM true
  | lvAtMid (cs1 cs2 : List Bool) (h : cs = cs1 ++ true :: cs2) (rM : ℝ) :
      RPhase cs mem (.rdMid :: .rdTre :: .rel :: rprog cs2) mem.bass rM true
  | lvAtTre (cs1 cs2 : List Bool) (h : cs = cs1 ++ true :: cs2) :
      RPhase cs mem (.rdTre :: .rel :: rprog cs2) mem.bass mem.mid true
  | spAtSpec (cs1 cs2 : List Bool) (h : cs = cs1 ++ false :: cs2) (rB rM : ℝ) :
      RPhase cs mem (.rdSpec :: .rel :: rprog cs2) rB rM true
  | atRel (cs1 cs2 : List Bool) (h : cs = cs1 ++ cs2) (rB rM : ℝ) :
      RPhase cs mem (.rel :: rprog cs2) rB rM true

def goodLevel (m0 : Mem) (us : List Mem) (x : ℝ × ℝ × ℝ) : Prop :=
  x = (m0.bass, m0.mid, m0.treble) ∨ ∃ u ∈ us, x = (u.bass, u.mid, u.treble)

def goodSpec (m0 : Mem) (us : List Mem) (s : List ℝ) : Prop :=
  s = m0.spectrum ∨ ∃ u ∈ us, s = u.spectrum

def Inv (m0 : Mem) (us : List Mem) (css : List (List Bool)) (c : Config) : Prop :=
  c.readers.length = css.length ∧
  (∃ b, WPhase m0 us c.wcode c.mem b ∧ (b = true ↔ c.lock = some Owner.writer)) ∧
  (∀ (t : ℕ) (ht : t < c.readers.length) (ht2 : t < css.length), ∃ b,
    RPhase (css.get ⟨t, ht2⟩) c.mem (c.readers.get ⟨t, ht⟩).rcode
      (c.readers.get ⟨t, ht⟩).regB (c.readers.get ⟨t, ht⟩).regM b ∧
    (b = true ↔ c.lock = some (Owner.reader t))) ∧
  (∀ x ∈ c.obsLevels, goodLevel m0 us x) ∧
  (∀ s ∈ c.obsSpec, goodSpec m0 us s)

lemma wprog_cons (u : Mem) (us : List Mem) :
    wprog (u :: us) = .acq :: .wrBass u.bass :: .wrMid u.mid :: .wrTre u.treble ::
      .wrSpec u.spectrum :: .rel :: wprog us := rfl

lemma rprog_cons_true (cs : List Bool) :
    rprog (true :: cs) = .acq :: .rdBass :: .rdMid :: .rdTre :: .rel :: rprog cs := rfl

lemma rprog_cons_false (cs : List Bool) :
    rprog (false :: cs) = .acq :: .rdSpec :: .rel :: rprog cs := rfl

lemma memAfter_append_one (m0 : Mem) (us1 : List Mem) (u : Mem) :
    memAfter m0 (us1 ++ [u]) = u := by
  simp [memAfter, List.foldl_append]

lemma memAfter_mem (m0 : Mem) (l : List Mem) :
    memAfter m0 l = m0 ∨ memAfter m0 l ∈ l := by
  induction l generalizing m0 with
  | nil => exact Or.inl rfl
  | cons u t ih =>
    rcases ih u with h | h
    · exact Or.inr (by simp [memAfter] at h ⊢; simp [h])
    · exact Or.inr (by simp [memAfter] at h ⊢; simp [h])

lemma wprog_eq_cons {us2 : List Mem} {i : Instr} {rest : List Instr}
    (h : wprog us2 = i :: rest) :
    ∃ u us3, us2 = u :: us3 ∧ i = Instr.acq ∧
      rest = .wrBass u.bass :: .wrMid u.mid :: .wrTre u.treble ::
        .wrSpec u.spectrum :: .rel :: wprog us3 := by
  cases us2 with
  | nil => simp [wprog] at h
  | cons u us3 =>
    rw [wprog_cons] at h
    injection h with h1 h2
    exact ⟨u, us3, rfl, h1.symm, h2.symm⟩

lemma rprog_eq_cons {cs2 : List Bool} {i : Instr} {rest : List Instr}
    (h : rprog cs2 = i :: rest) :
    ∃ cs3, i = Instr.acq ∧
      ((cs2 = true :: cs3 ∧ rest = .rdBass :: .rdMid :: .rdTre :: .rel :: rprog cs3) ∨
        (cs2 = false :: cs3 ∧ rest = .rdSpec :: .rel :: rprog cs3)) := by
  cases cs2 with
  | nil => simp [rprog] at h
  | cons call cs3 =>
    cases call with
    | true =>
      rw [rprog_cons_true] at h
      injection h with h1 h2
      exact ⟨cs3, h1.symm, Or.inl ⟨rfl, h2.symm⟩⟩
    | false =>
      rw [rprog_cons_false] at h
      injection h with h1 h2
      exact ⟨cs3, h1.symm, Or.inr ⟨rfl, h2.symm⟩⟩

lemma WPhase_false {m0 : Mem} {us : List Mem} {wcode : List Instr} {mem : Mem}
    (h : WPhase m0 us wcode mem false) :
    ∃ us1 us2, us = us1 ++ us2 ∧ wcode = wprog us2 ∧ mem = memAfter m0 us1 := by
  cases h with
  | boundary us1 us2 h2 => exact ⟨us1, us2, h2, rfl, rfl⟩

lemma RPhase_false {cs : List Bool} {mem : Mem} {rcode : List Instr} {rB rM : ℝ}
    (h : RPhase cs mem rcode rB rM false) :
    ∃ cs1 cs2, cs = cs1 ++ cs2 ∧ rcode = rprog cs2 := by
  cases h with
  | boundary cs1 cs2 h2 rB rM => exact ⟨cs1, cs2, h2, rfl⟩

lemma WPhase_inv_acq {m0 : Mem} {us : List Mem} {wcode : List Instr} {mem : Mem}
    {b : Bool} {rest : List Instr} (hp : WPhase m0 us wcode mem b)
    (h : wcode = Instr.acq :: rest) :
    ∃ us1 u us2, us = us1 ++ u :: us2 ∧ b = false ∧ mem = memAfter m0 us1 ∧
      rest = .wrBass u.bass :: .wrMid u.mid :: .wrTre u.treble ::
        .wrSpec u.spectrum :: .rel :: wprog us2 := by
  cases hp with
  | boundary us1 us2 h2 =>
    obtain ⟨u, us3, rfl, -, hrest⟩ := wprog_eq_cons h
    exact ⟨us1, u, us3, h2, rfl, rfl, hrest⟩
  | atBass us1 u us2 h2 => simp at h
  | atMid us1 u us2 h2 => simp at h
  | atTre us1 u us2 h2 => simp at h
  | atSpec us1 u us2 h2 => simp at h
  | atRel us1 u us2 h2 => simp at h

lemma WPhase_inv_wrBass {m0 : Mem} {us : List Mem} {wcode : List Instr} {mem : Mem}
    {b : Bool} {v : ℝ} {rest : List Instr} (hp : WPhase m0 us wcode mem b)
    (h : wcode = Instr.wrBass v :: rest) :
    ∃ us1 u us2, us = us1 ++ u :: us2 ∧ b = true ∧ v = u.bass ∧
      mem = memAfter m0 us1 ∧
      rest = .wrMid u.mid :: .wrTre u.treble :: .wrSpec u.spectrum :: .rel ::
        wprog us2 := by
  cases hp with
  | boundary us1 us2 h2 =>
    obtain ⟨u, us3, rfl, hacq, -⟩ := wprog_eq_cons h
    exact absurd hacq (by simp)
  | atBass us1 u us2 h2 =>
    simp only [List.cons.injEq, Instr.wrBass.injEq] at h
    exact ⟨us1, u, us2, h2, rfl, h.1.symm, rfl, h.2.symm⟩
  | atMid us1 u us2 h2 => simp at h
  | atTre us1 u us2 h2 => simp at h
  | atSpec us1 u us2 h2 => simp at h
  | atRel us1 u us2 h2 => simp at h

lemma WPhase_inv_wrMid {m0 : Mem} {us : List Mem} {wcode : List Instr} {mem : Mem}
    {b : Bool} {v : ℝ} {rest : List Instr} (hp : WPhase m0 us wcode mem b)
    (h : wcode = Instr.wrMid v :: rest) :
    ∃ us1 u us2, us = us1 ++ u :: us2 ∧ b = true ∧ v = u.mid ∧
      mem = { memAfter m0 us1 with bass := u.bass } ∧
      rest = .wrTre u.treble :: .wrSpec u.spectrum :: .rel :: wprog us2 := by
  cases hp with
  | boundary us1 us2 h2 =>
    obtain ⟨u, us3, rfl, hacq, -⟩ := wprog_eq_cons h
    exact absurd hacq (by simp)
  | atBass us1 u us2 h2 => simp at h
  | atMid us1 u us2 h2 =>
    simp only [List.cons.injEq, Instr.wrMid.injEq] at h
    exact ⟨us1, u, us2, h2, rfl, h.1.symm, rfl, h.2.symm⟩
  | atTre us1 u us2 h2 => simp at h
  | atSpec us1 u us2 h2 => simp at h
  | atRel us1 u us2 h2 => simp at h

lemma WPhase_inv_wrTre {m0 : Mem} {us : List Mem} {wcode : List Instr} {mem : Mem}
    {b : Bool} {v : ℝ} {rest : List Instr} (hp : WPhase m0 us wcode mem b)
    (h : wcode = Instr.wrTre v :: rest) :
    ∃ us1 u us2, us = us1 ++ u :: us2 ∧ b = true ∧ v = u.treble ∧
      mem = { memAfter m0 us1 with bass := u.bass, mid := u.mid } ∧
      rest = .wrSpec u.spectrum :: .rel :: wprog us2 := by
  cases hp with
  | boundary us1 us2 h2 =>
    obtain ⟨u, us3, rfl, hacq, -⟩ := wprog_eq_cons h
    exact absurd hacq (by simp)
  | atBass us1 u us2 h2 => simp at h
  | atMid us1 u us2 h2 => simp at h
  | atTre us1 u us2 h2 =>
    simp only [List.cons.injEq, Instr.wrTre.injEq] at h
    exact ⟨us1, u, us2, h2, rfl, h.1.symm, rfl, h.2.symm⟩
  | atSpec us1 u us2 h2 => simp at h
  | atRel us1 u us2 h2 => simp at h

lemma WPhase_inv_wrSpec {m0 : Mem} {us : List Mem} {wcode : List Instr} {mem : Mem}
    {b : Bool} {v : List ℝ} {rest : List Instr} (hp : WPhase m0 us wcode mem b)
    (h : wcode = Instr.wrSpec v :: rest) :
    ∃ us1 u us2, us = us1 ++ u :: us2 ∧ b = true ∧ v = u.spectrum ∧
      mem = { memAfter m0 us1 with bass := u.bass, mid := u.mid, treble := u.treble } ∧
      rest = .rel :: wprog us2 := by
  cases hp with
  | boundary us1 us2 h2 =>
    obtain ⟨u, us3, rfl, hacq, -⟩ := wprog_eq_cons h
    exact absurd hacq (by simp)
  | atBass us1 u us2 h2 => simp at h
  | atMid us1 u us2 h2 => simp at h
  | atTre us1 u us2 h2 => simp at h
  | atSpec us1 u us2 h2 =>
    simp only [List.cons.injEq, Instr.wrSpec.injEq] at h
    exact ⟨us1, u, us2, h2, rfl, h.1.symm, rfl, h.2.symm⟩
  | atRel us1 u us2 h2 => simp at h

lemma WPhase_inv_rel {m0 : Mem} {us : List Mem} {wcode : List Instr} {mem : Mem}
    {b : Bool} {rest : List Instr} (hp : WPhase m0 us wcode mem b)
    (h : wcode = Instr.rel :: rest) :
    ∃ us1 u us2, us = us1 ++ u :: us2 ∧ b = true ∧ mem = u ∧
      rest = wprog us2 := by
  cases hp with
  | boundary us1 us2 h2 =>
    obtain ⟨u, us3, rfl, hacq, -⟩ := wprog_eq_cons h
    exact absurd hacq (by simp)
  | atBass us1 u us2 h2 => simp at h
  | atMid us1 u us2 h2 => simp at h
  | atTre us1 u us2 h2 => simp at h
  | atSpec us1 u us2 h2 => simp at h
  | atRel us1 u us2 h2 =>
    simp only [List.cons.injEq] at h
    exact ⟨us1, mem, us2, h2, rfl, rfl, h.2.symm⟩


lemma RPhase_inv_rdBass {cs : List Bool} {mem : Mem} {rcode : List Instr}
    {rB rM : ℝ} {b : Bool} {rest : List Instr}
    (hp : RPhase cs mem rcode rB rM b) (h : rcode = Instr.rdBass :: rest) :
    ∃ cs1 cs2, cs = cs1 ++ true :: cs2 ∧ b = true ∧
      rest = .rdMid :: .rdTre :: .rel :: rprog cs2 := by
  cases hp with
  | boundary cs1 cs2 h2 rB rM =>
    obtain ⟨cs3, hacq, -⟩ := rprog_eq_cons h
    exact absurd hacq (by simp)
  | lvAtBass cs1 cs2 h2 rB rM =>
    simp only [List.cons.injEq] at h
    exact ⟨cs1, cs2, h2, rfl, h.2.symm⟩
  | lvAtMid cs1 cs2 h2 rM => simp at h
  | lvAtTre cs1 cs2 h2 => simp at h
  | spAtSpec cs1 cs2 h2 rB rM => simp at h
  | atRel cs1 cs2 h2 rB rM => simp at h

lemma RPhase_inv_rdMid {cs : List Bool} {mem : Mem} {rcode : List Instr}
    {rB rM : ℝ} {b : Bool} {rest : List Instr}
    (hp : RPhase cs mem rcode rB rM b) (h : rcode = Instr.rdMid :: rest) :
    ∃ cs1 cs2, cs = cs1 ++ true :: cs2 ∧ b = true ∧ rB = mem.bass ∧
      rest = .rdTre :: .rel :: rprog cs2 := by
  cases hp with
  | boundary cs1 cs2 h2 rB rM =>
    obtain ⟨cs3, hacq, -⟩ := rprog_eq_cons h
    exact absurd hacq (by simp)
  | lvAtBass cs1 cs2 h2 rB rM => simp at h
  | lvAtMid cs1 cs2 h2 rM =>
    simp only [List.cons.injEq] at h
    exact ⟨cs1, cs2, h2, rfl, rfl, h.2.symm⟩
  | lvAtTre cs1 cs2 h2 => simp at h
  | spAtSpec cs1 cs2 h2 rB rM => simp at h
  | atRel cs1 cs2 h2 rB rM => simp at h

lemma RPhase_inv_rdTre {cs : List Bool} {mem : Mem} {rcode : List Instr}
    {rB rM : ℝ} {b : Bool} {rest : List Instr}
    (hp : RPhase cs mem rcode rB rM b) (h : rcode = Instr.rdTre :: rest) :
    ∃ cs1 cs2, cs = cs1 ++ true :: cs2 ∧ b = true ∧ rB = mem.bass ∧
      rM = mem.mid ∧ rest = .rel :: rprog cs2 := by
  cases hp with
  | boundary cs1 cs2 h2 rB rM =>
    obtain ⟨cs3, hacq, -⟩ := rprog_eq_cons h
    exact absurd hacq (by simp)
  | lvAtBass cs1 cs2 h2 rB rM => simp at h
  | lvAtMid cs1 cs2 h2 rM => simp at h
  | lvAtTre cs1 cs2 h2 =>
    simp only [List.cons.injEq] at h
    exact ⟨cs1, cs2, h2, rfl, rfl, rfl, h.2.symm⟩
  | spAtSpec cs1 cs2 h2 rB rM => simp at h
  | atRel cs1 cs2 h2 rB rM => simp at h

lemma RPhase_inv_rdSpec {cs : List Bool} {mem : Mem} {rcode : List Instr}
    {rB rM : ℝ} {b : Bool} {rest : List Instr}
    (hp : RPhase cs mem rcode rB rM b) (h : rcode = Instr.rdSpec :: rest) :
    ∃ cs1 cs2, cs = cs1 ++ false :: cs2 ∧ b = true ∧
      rest = .rel :: rprog cs2 := by
  cases hp with
  | boundary cs1 cs2 h2 rB rM =>
    obtain ⟨cs3, hacq, -⟩ := rprog_eq_cons h
    exact absurd hacq (by simp)
  | lvAtBass cs1 cs2 h2 rB rM => simp at h
  | lvAtMid cs1 cs2 h2 rM => simp at h
  | lvAtTre cs1 cs2 h2 => simp at h
  | spAtSpec cs1 cs2 h2 rB rM =>
    simp only [List.cons.injEq] at h
    exact ⟨cs1, cs2, h2, rfl, h.2.symm⟩
  | atRel cs1 cs2 h2 rB rM => simp at h

lemma RPhase_inv_rel {cs : List Bool} {mem : Mem} {rcode : List Instr}
    {rB rM : ℝ} {b : Bool} {rest : List Instr}
    (hp : RPhase cs mem rcode rB rM b) (h : rcode = Instr.rel :: rest) :
    ∃ cs1 cs2, cs = cs1 ++ cs2 ∧ b = true ∧ rest = rprog cs2 := by
  cases hp with
  | boundary cs1 cs2 h2 rB rM =>
    obtain ⟨cs3, hacq, -⟩ := rprog_eq_cons h
    exact absurd hacq (by simp)
  | lvAtBass cs1 cs2 h2 rB rM => simp at h
  | lvAtMid cs1 cs2 h2 rM => simp at h
  | lvAtTre cs1 cs2 h2 => simp at h
  | spAtSpec cs1 cs2 h2 rB rM => simp at h
  | atRel cs1 cs2 h2 rB rM =>
    simp only [List.cons.injEq] at h
    exact ⟨cs1, cs2, h2, rfl, h.2.symm⟩

lemma b_false_of_lock {b : Bool} {l : Option Owner} {o : Owner}
    (hb : b = true ↔ l = some o) (h : l ≠ some o) : b = false := by
  cases b
  · rfl
  · exact absurd (hb.mp rfl) h

lemma goodLevel_memAfter (m0 : Mem) (us1 us2 : List Mem) :
    goodLevel m0 (us1 ++ us2) ((memAfter m0 us1).bass, (memAfter m0 us1).mid,
      (memAfter m0 us1).treble) := by
  rcases memAfter_mem m0 us1 with h | h
  · left
    rw [h]
  · right
    exact ⟨memAfter m0 us1, List.mem_append_left us2 h, rfl⟩

lemma goodSpec_memAfter (m0 : Mem) (us1 us2 : List Mem) :
    goodSpec m0 (us1 ++ us2) (memAfter m0 us1).spectrum := by
  rcases memAfter_mem m0 us1 with h | h
  · left
    rw [h]
  · right
    exact ⟨memAfter m0 us1, List.mem_append_left us2 h, rfl⟩


lemma get_set_self {l : List RState} {t : ℕ} (x : RState)
    (h : t < (l.set t x).length) : (l.set t x).get ⟨t, h⟩ = x := by
  rw [List.get_eq_getElem, List.getElem_set_self]

lemma get_set_other {l : List RState} {t t' : ℕ} (x : RState) (hne : t ≠ t')
    (h : t' < (l.set t x).length) (h2 : t' < l.length) :
    (l.set t x).get ⟨t', h⟩ = l.get ⟨t', h2⟩ := by
  rw [List.get_eq_getElem, List.get_eq_getElem]
  exact List.getElem_set_ne hne h

lemma Inv_step {m0 : Mem} {us : List Mem} {css : List (List Bool)} {c c' : Config}
    (hinv : Inv m0 us css c) (hs : Step c c') : Inv m0 us css c' := by
  obtain ⟨hlen, ⟨bw, hw, hbw⟩, hrs, hobsL, hobsS⟩ := hinv
  cases hs with
  | wAcq heq hlock =>
    obtain ⟨us1, u, us2, hus, hbf, hmem, hrest⟩ := WPhase_inv_acq hw heq
    subst hrest
    refine ⟨hlen, ⟨true, ?_, by simp⟩, ?_, hobsL, hobsS⟩
    · exact hmem ▸ WPhase.atBass us1 u us2 hus
    · intro t ht ht2
      obtain ⟨bt, hpt, hbt⟩ := hrs t ht ht2
      have hbtf : bt = false := b_false_of_lock hbt (by rw [hlock]; simp)
      subst hbtf
      exact ⟨false, hpt, by simp⟩
  | wWrBass heq =>
    obtain ⟨us1, u, us2, hus, hbt, hv, hmem, hrest⟩ := WPhase_inv_wrBass hw heq
    subst hbt
    subst hrest
    subst hv
    have hlockw : c.lock = some Owner.writer := hbw.mp rfl
    refine ⟨hlen, ⟨true, ?_, by simp [hlockw]⟩, ?_, hobsL, hobsS⟩
    · have hm2 : ({ c.mem with bass := u.bass } : Mem) =
          { memAfter m0 us1 with bass := u.bass } := by rw [hmem]
      exact hm2 ▸ WPhase.atMid us1 u us2 hus
    · intro t ht ht2
      obtain ⟨bt, hpt, hbt2⟩ := hrs t ht ht2
      have hbtf : bt = false := b_false_of_lock hbt2 (by rw [hlockw]; simp)
      subst hbtf
      obtain ⟨cs1, cs2, hcs, hrc⟩ := RPhase_false hpt
      refine ⟨false, ?_, by simp [hlockw]⟩
      rw [hrc]
      exact RPhase.boundary cs1 cs2 hcs _ _
  | wWrMid heq =>
    obtain ⟨us1, u, us2, hus, hbt, hv, hmem, hrest⟩ := WPhase_inv_wrMid hw heq
    subst hbt
    subst hrest
    subst hv
    have hlockw : c.lock = some Owner.writer := hbw.mp rfl
    refine ⟨hlen, ⟨true, ?_, by simp [hlockw]⟩, ?_, hobsL, hobsS⟩
    · have hm2 : ({ c.mem with mid := u.mid } : Mem) =
          { memAfter m0 us1 with bass := u.bass, mid := u.mid } := by rw [hmem]
      exact hm2 ▸ WPhase.atTre us1 u us2 hus
    · intro t ht ht2
      obtain ⟨bt, hpt, hbt2⟩ := hrs t ht ht2
      have hbtf : bt = false := b_false_of_lock hbt2 (by rw [hlockw]; simp)
      subst hbtf
      obtain ⟨cs1, cs2, hcs, hrc⟩ := RPhase_false hpt
      refine ⟨false, ?_, by simp [hlockw]⟩
      rw [hrc]
      exact RPhase.boundary cs1 cs2 hcs _ _
  | wWrTre heq =>
    obtain ⟨us1, u, us2, hus, hbt, hv, hmem, hrest⟩ := WPhase_inv_wrTre hw heq
    subst hbt
    subst hrest
    subst hv
    have hlockw : c.lock = some Owner.writer := hbw.mp rfl
    refine ⟨hlen, ⟨true, ?_, by simp [hlockw]⟩, ?_, hobsL, hobsS⟩
    · have hm2 : ({ c.mem with treble := u.treble } : Mem) =
          { memAfter m0 us1 with bass := u.bass, mid := u.mid, treble := u.treble } := by
        rw [hmem]
      exact hm2 ▸ WPhase.atSpec us1 u us2 hus
    · intro t ht ht2
      obtain ⟨bt, hpt, hbt2⟩ := hrs t ht ht2
      have hbtf : bt = false := b_false_of_lock hbt2 (by rw [hlockw]; simp)
      subst hbtf
      obtain ⟨cs1, cs2, hcs, hrc⟩ := RPhase_false hpt
      refine ⟨false, ?_, by simp [hlockw]⟩
      rw [hrc]
      exact RPhase.boundary cs1 cs2 hcs _ _
  | wWrSpec heq =>
    obtain ⟨us1, u, us2, hus, hbt, hv, hmem, hrest⟩ := WPhase_inv_wrSpec hw heq
    subst hbt
    subst hrest
    subst hv
    have hlockw : c.lock = some Owner.writer := hbw.mp rfl
    refine ⟨hlen, ⟨true, ?_, by simp [hlockw]⟩, ?_, hobsL, hobsS⟩
    · have hm2 : ({ c.mem with spectrum := u.spectrum } : Mem) = u := by
        rw [hmem]
      show WPhase m0 us (Instr.rel :: wprog us2) ({ c.mem with spectrum := u.spectrum }) true
      rw [hm2]
      exact WPhase.atRel us1 u us2 hus
    · intro t ht ht2
      obtain ⟨bt, hpt, hbt2⟩ := hrs t ht ht2
      have hbtf : bt = false := b_false_of_lock hbt2 (by rw [hlockw]; simp)
      subst hbtf
      obtain ⟨cs1, cs2, hcs, hrc⟩ := RPhase_false hpt
      refine ⟨false, ?_, by simp [hlockw]⟩
      rw [hrc]
      exact RPhase.boundary cs1 cs2 hcs _ _
  | wRel heq =>
    obtain ⟨us1, u, us2, hus, hbt, hmem, hrest⟩ := WPhase_inv_rel hw heq
    subst hbt
    subst hrest
    have hlockw : c.lock = some Owner.writer := hbw.mp rfl
    refine ⟨hlen, ⟨false, ?_, by simp⟩, ?_, hobsL, hobsS⟩
    · have hus2 : us = (us1 ++ [u]) ++ us2 := by rw [hus]; simp
      have hm2 : c.mem = memAfter m0 (us1 ++ [u]) := by
        rw [hmem, memAfter_append_one]
      exact hm2 ▸ WPhase.boundary (us1 ++ [u]) us2 hus2
    · intro t ht ht2
      obtain ⟨bt, hpt, hbt2⟩ := hrs t ht ht2
      have hbtf : bt = false := b_false_of_lock hbt2 (by rw [hlockw]; simp)
      subst hbtf
      exact ⟨false, hpt, by simp⟩
  | rAcq t ht heq hlock =>
    have ht2 : t < css.length := hlen ▸ ht
    obtain ⟨bt, hpt, hbt⟩ := hrs t ht ht2
    have hbtf : bt = false := b_false_of_lock hbt (by rw [hlock]; simp)
    subst hbtf
    obtain ⟨cs1, cs2, hcs, hrc⟩ := RPhase_false hpt
    obtain ⟨cs3, -, hcase⟩ := rprog_eq_cons (hrc.symm.trans heq)
    have hbwf : bw = false := b_false_of_lock hbw (by rw [hlock]; simp)
    subst hbwf
    refine ⟨by rw [List.length_set]; exact hlen, ⟨false, hw, by simp⟩, ?_,
      hobsL, hobsS⟩
    intro t' ht' ht2'
    by_cases hne : t = t'
    · subst hne
      rw [get_set_self]
      rcases hcase with ⟨hcs2, hrest⟩ | ⟨hcs2, hrest⟩
      · subst hrest
        exact ⟨true, RPhase.lvAtBass cs1 cs3 (by rw [hcs, hcs2]) _ _, by simp⟩
      · subst hrest
        exact ⟨true, RPhase.spAtSpec cs1 cs3 (by rw [hcs, hcs2]) _ _, by simp⟩
    · have hto : t' < c.readers.length := by
        rw [List.length_set] at ht'
        exact ht'
      rw [get_set_other _ hne ht' hto]
      obtain ⟨bt', hpt', hbt'⟩ := hrs t' hto ht2'
      have hbt'f : bt' = false := b_false_of_lock hbt' (by rw [hlock]; simp)
      subst hbt'f
      refine ⟨false, hpt', ?_⟩
      simp only [Bool.false_eq_true, false_iff]
      intro hcontra
      simp only [Option.some.injEq, Owner.reader.injEq] at hcontra
      exact hne hcontra
  | rRel t ht heq =>
    have ht2 : t < css.length := hlen ▸ ht
    obtain ⟨bt, hpt, hbt⟩ := hrs t ht ht2
    obtain ⟨cs1, cs2, hcs, hbtt, hrest⟩ := RPhase_inv_rel hpt heq
    subst hbtt
    subst hrest
    have hlockt : c.lock = some (Owner.reader t) := hbt.mp rfl
    have hbwf : bw = false := b_false_of_lock hbw (by rw [hlockt]; simp)
    subst hbwf
    refine ⟨by rw [List.length_set]; exact hlen, ⟨false, hw, by simp⟩, ?_,
      hobsL, hobsS⟩
    intro t' ht' ht2'
    by_cases hne : t = t'
    · subst hne
      rw [get_set_self]
      exact ⟨false, RPhase.boundary cs1 cs2 hcs _ _, by simp⟩
    · have hto : t' < c.readers.length := by
        rw [List.length_set] at ht'
        exact ht'
      rw [get_set_other _ hne ht' hto]
      obtain ⟨bt', hpt', hbt'⟩ := hrs t' hto ht2'
      have hbt'f : bt' = false := b_false_of_lock hbt'
        (by rw [hlockt]; simp; intro hcontra; exact hne hcontra)
      subst hbt'f
      exact ⟨false, hpt', by simp⟩
  | rRdBass t ht heq =>
    have ht2 : t < css.length := hlen ▸ ht
    obtain ⟨bt, hpt, hbt⟩ := hrs t ht ht2
    obtain ⟨cs1, cs2, hcs, hbtt, hrest⟩ := RPhase_inv_rdBass hpt heq
    subst hbtt
    subst hrest
    refine ⟨by rw [List.length_set]; exact hlen, ⟨bw, hw, hbw⟩, ?_,
      hobsL, hobsS⟩
    intro t' ht' ht2'
    by_cases hne : t = t'
    · subst hne
      rw [get_set_self]
      exact ⟨true, RPhase.lvAtMid cs1 cs2 hcs _, hbt⟩
    · have hto : t' < c.readers.length := by
        rw [List.length_set] at ht'
        exact ht'
      rw [get_set_other _ hne ht' hto]
      exact hrs t' hto ht2'
  | rRdMid t ht heq =>
    have ht2 : t < css.length := hlen ▸ ht
    obtain ⟨bt, hpt, hbt⟩ := hrs t ht ht2
    obtain ⟨cs1, cs2, hcs, hbtt, hrB, hrest⟩ := RPhase_inv_rdMid hpt heq
    subst hbtt
    subst hrest
    refine ⟨by rw [List.length_set]; exact hlen, ⟨bw, hw, hbw⟩, ?_,
      hobsL, hobsS⟩
    intro t' ht' ht2'
    by_cases hne : t = t'
    · subst hne
      rw [get_set_self]
      refine ⟨true, ?_, hbt⟩
      show RPhase _ _ _ (c.readers.get ⟨t, ht⟩).regB _ _
      rw [hrB]
      exact RPhase.lvAtTre cs1 cs2 hcs
    · have hto : t' < c.readers.length := by
        rw [List.length_set] at ht'
        exact ht'
      rw [get_set_other _ hne ht' hto]
      exact hrs t' hto ht2'
  | rRdTre t ht heq =>
    have ht2 : t < css.length := hlen ▸ ht
    obtain ⟨bt, hpt, hbt⟩ := hrs t ht ht2
    obtain ⟨cs1, cs2, hcs, hbtt, hrB, hrM, hrest⟩ := RPhase_inv_rdTre hpt heq
    subst hbtt
    subst hrest
    have hlockt : c.lock = some (Owner.reader t) := hbt.mp rfl
    have hbwf : bw = false := b_false_of_lock hbw (by rw [hlockt]; simp)
    subst hbwf
    obtain ⟨us1, us2, hus, hwc, hmem⟩ := WPhase_false hw
    refine ⟨by rw [List.length_set]; exact hlen, ⟨false, hw, hbw⟩, ?_, ?_, hobsS⟩
    · intro t' ht' ht2'
      by_cases hne : t = t'
      · subst hne
        rw [get_set_self]
        exact ⟨true, RPhase.atRel (cs1 ++ [true]) cs2 (by rw [hcs]; simp) _ _, hbt⟩
      · have hto : t' < c.readers.length := by
          rw [List.length_set] at ht'
          exact ht'
        rw [get_set_other _ hne ht' hto]
        exact hrs t' hto ht2'
    · intro x hx
      rcases List.mem_cons.mp hx with rfl | hx2
      · rw [hrB, hrM, hmem]
        exact hus ▸ goodLevel_memAfter m0 us1 us2
      · exact hobsL x hx2
  | rRdSpec t ht heq =>
    have ht2 : t < css.length := hlen ▸ ht
    obtain ⟨bt, hpt, hbt⟩ := hrs t ht ht2
    obtain ⟨cs1, cs2, hcs, hbtt, hrest⟩ := RPhase_inv_rdSpec hpt heq
    subst hbtt
    subst hrest
    have hlockt : c.lock = some (Owner.reader t) := hbt.mp rfl
    have hbwf : bw = false := b_false_of_lock hbw (by rw [hlockt]; simp)
    subst hbwf
    obtain ⟨us1, us2, hus, hwc, hmem⟩ := WPhase_false hw
    refine ⟨by rw [List.length_set]; exact hlen, ⟨false, hw, hbw⟩, ?_, hobsL, ?_⟩
    · intro t' ht' ht2'
      by_cases hne : t = t'
      · subst hne
        rw [get_set_self]
        exact ⟨true, RPhase.atRel (cs1 ++ [false]) cs2 (by rw [hcs]; simp) _ _, hbt⟩
      · have hto : t' < c.readers.length := by
          rw [List.length_set] at ht'
          exact ht'
        rw [get_set_other _ hne ht' hto]
        exact hrs t' hto ht2'
    · intro x hx
      rcases List.mem_cons.mp hx with rfl | hx2
      · rw [hmem]
        exact hus ▸ goodSpec_memAfter m0 us1 us2
      · exact hobsS x hx2


/-- The initial configuration: initial memory `m0`, free lock, the writer
about to perform the updates `us`, reader `t` about to perform the calls
`css.get t`, and no observations yet. -/
def initConfig (m0 : Mem) (us : List Mem) (css : List (List Bool)) : Config :=
  { mem := m0
    lock := none
    wcode := wprog us
    readers := css.map fun cs => { rcode := rprog cs, regB := 0, regM := 0 }
    obsLevels := []
    obsSpec := [] }

lemma Inv_init (m0 : Mem) (us : List Mem) (css : List (List Bool)) :
    Inv m0 us css (initConfig m0 us css) := by
  refine ⟨by simp [initConfig], ⟨false, WPhase.boundary [] us rfl, by simp [initConfig]⟩,
    ?_, by simp [initConfig], by simp [initConfig]⟩
  intro t ht ht2
  have hg : ((initConfig m0 us css).readers.get ⟨t, ht⟩) =
      { rcode := rprog (css.get ⟨t, ht2⟩), regB := 0, regM := 0 } := by
    show ((css.map fun cs =>
      ({ rcode := rprog cs, regB := 0, regM := 0 } : RState)).get ⟨t, ht⟩) = _
    rw [List.get_eq_getElem, List.getElem_map]
    rfl
  rw [hg]
  exact ⟨false, RPhase.boundary [] (css.get ⟨t, ht2⟩) rfl 0 0, by simp [initConfig]⟩

/-- Claim C9: under concurrent execution of the producer's update
(audio.py:168-172, four field writes inside `with self.lock`) and any number
of `get_audio_levels()`/`get_spectrum()` calls by any number of reader
threads (audio.py:192-198, reads inside the same lock), every tuple and
every spectrum array a reader observes is the complete value written by one
single update (or the initial value) — never a mixture of two updates. -/
theorem C9_no_torn_reads (m0 : Mem) (us : List Mem) (css : List (List Bool))
    (c : Config) (h : Relation.ReflTransGen Step (initConfig m0 us css) c) :
    (∀ x ∈ c.obsLevels,
      x = (m0.bass, m0.mid, m0.treble) ∨ ∃ u ∈ us, x = (u.bass, u.mid, u.treble)) ∧
    (∀ s ∈ c.obsSpec, s = m0.spectrum ∨ ∃ u ∈ us, s = u.spectrum) := by
  have hinv : Inv m0 us css c := by
    induction h with
    | refl => exact Inv_init m0 us css
    | tail hab hbc ih => exact Inv_step ih hbc
  exact ⟨hinv.2.2.2.1, hinv.2.2.2.2⟩

/-- Witness for C9 at the initial configuration. -/
theorem C9_witness :
    (∀ x ∈ (initConfig ⟨0, 0, 0, []⟩ [] []).obsLevels,
      x = ((0:ℝ), (0:ℝ), (0:ℝ)) ∨
        ∃ u ∈ ([] : List Mem), x = (u.bass, u.mid, u.treble)) ∧
    (∀ s ∈ (initConfig ⟨0, 0, 0, []⟩ [] []).obsSpec,
      s = ([] : List ℝ) ∨ ∃ u ∈ ([] : List Mem), s = u.spectrum) :=
  C9_no_torn_reads ⟨0, 0, 0, []⟩ [] [] (initConfig ⟨0, 0, 0, []⟩ [] [])
    Relation.ReflTransGen.refl

/-! ### Claim C10: `get_spectrum` returns a fresh copy (heap model)

Array identity and in-place mutation are modelled with an explicit heap of
numpy arrays: addresses below `next` are allocated; `np.ndarray.copy()`
allocates a fresh array with the same contents. -/

/-- A heap of float arrays. -/
structure Heap where
  cells : ℕ → List ℝ
  next : ℕ

/-- Allocate a fresh array holding `v`; returns the new heap and the fresh
address. -/
def Heap.alloc (h : Heap) (v : List ℝ) : Heap × ℕ :=
  ({ cells := Function.update h.cells h.next v, next := h.next + 1 }, h.next)

/-- In-place element assignment `arr[i] = v` on the array at address `a`
(the caller mutating the sequence it received). -/
def Heap.writeIdx (h : Heap) (a i : ℕ) (v : ℝ) : Heap :=
  { h with cells := Function.update h.cells a ((h.cells a).set i v) }

/-- `get_spectrum` (audio.py:196-198) at the heap level: the analyzer's
internal `spectrum_bins` array lives at address `addr`;
`self.spectrum_bins.copy()` allocates a fresh array with the same contents
and returns its address. -/
def get_spectrum_heap (addr : ℕ) (h : Heap) : Heap × ℕ :=
  h.alloc (h.cells addr)

/-- Claim C10: `get_spectrum()` returns a fresh copy of the internal array:
the returned address differs from the internal one and initially holds the
same contents, and mutating the returned array never changes the internal
array nor the result of a later `get_spectrum()` call. -/
theorem C10_get_spectrum_fresh_copy (addr : ℕ) (h : Heap)
    (hv : addr < h.next) (i : ℕ) (v : ℝ) :
    (get_spectrum_heap addr h).2 ≠ addr ∧
    (get_spectrum_heap addr h).1.cells (get_spectrum_heap addr h).2 =
      h.cells addr ∧
    (((get_spectrum_heap addr h).1.writeIdx (get_spectrum_heap addr h).2 i v).cells
      addr = h.cells addr) ∧
    ((get_spectrum_heap addr
        ((get_spectrum_heap addr h).1.writeIdx (get_spectrum_heap addr h).2 i v)).1.cells
      (get_spectrum_heap addr
        ((get_spectrum_heap addr h).1.writeIdx (get_spectrum_heap addr h).2 i v)).2 =
      h.cells addr) := by
  have hne : addr ≠ h.next := by omega
  have h3 : (((get_spectrum_heap addr h).1.writeIdx (get_spectrum_heap addr h).2 i v).cells
      addr = h.cells addr) := by
    simp only [get_spectrum_heap, Heap.alloc, Heap.writeIdx]
    rw [Function.update_noteq hne, Function.update_noteq hne]
  refine ⟨by simp only [get_spectrum_heap, Heap.alloc]; omega, ?_, h3, ?_⟩
  · simp only [get_spectrum_heap, Heap.alloc]
    rw [Function.update_same]
  · simp only [get_spectrum_heap, Heap.alloc, Heap.writeIdx] at h3 ⊢
    rw [Function.update_same]
    exact h3

/-- Witness for C10 on a one-array heap. -/
theorem C10_witness :
    (0:ℕ) < (Heap.mk (fun _ => []) 1).next ∧
    ((get_spectrum_heap 0 (Heap.mk (fun _ => []) 1)).2 ≠ 0 ∧
      (get_spectrum_heap 0 (Heap.mk (fun _ => []) 1)).1.cells
        (get_spectrum_heap 0 (Heap.mk (fun _ => []) 1)).2 =
        (Heap.mk (fun _ => []) 1).cells 0 ∧
      (((get_spectrum_heap 0 (Heap.mk (fun _ => []) 1)).1.writeIdx
          (get_spectrum_heap 0 (Heap.mk (fun _ => []) 1)).2 0 1).cells 0 =
        (Heap.mk (fun _ => []) 1).cells 0) ∧
      ((get_spectrum_heap 0
          ((get_spectrum_heap 0 (Heap.mk (fun _ => []) 1)).1.writeIdx
            (get_spectrum_heap 0 (Heap.mk (fun _ => []) 1)).2 0 1)).1.cells
        (get_spectrum_heap 0
          ((get_spectrum_heap 0 (Heap.mk (fun _ => []) 1)).1.writeIdx
            (get_spectrum_heap 0 (Heap.mk (fun _ => []) 1)).2 0 1)).2 =
        (Heap.mk (fun _ => []) 1).cells 0)) :=
  ⟨by decide, C10_get_spectrum_fresh_copy 0 (Heap.mk (fun _ => []) 1)
    (by decide) 0 1⟩

end MusicVisualizer
